import Mathlib

set_option linter.unusedVariables false
set_option linter.unreachableTactic false
set_option linter.unusedTactic false
set_option linter.unnecessarySeqFocus false

/-!
Verification development for the `agentcontract` core: a shallow embedding of
the trajectory data model (`types.py`), the recorder (`recorder/core.py`),
the cassette codec (`serialization.py`), the replay engine
(`replay/engine.py`) and the assertion/policy engine (`assertions/engine.py`),
with theorems settling the specified properties.

Python's dynamically-typed values are embedded as the inductive `PyVal`.
Machine floats are modelled as rationals (the code performs no float
arithmetic beyond identity coercions, so only equality and totality matter);
`str()` of a float is abstracted by a numeral-only rendering, which preserves
the single property the proofs use: the string form of a non-string value is
never one of the four role names.
-/

/-- Embedding of a Python runtime value.  `isoObj s` models an object whose
`isoformat()` method returns the string `s` (e.g. `datetime`); `obj s` models
any other object, with `s` standing for its `str()`/`repr()` text. -/
inductive PyVal where
  | none : PyVal
  | bool (b : Bool) : PyVal
  | int (n : Int) : PyVal
  | float (q : Rat) : PyVal
  | str (s : String) : PyVal
  | list (xs : List PyVal) : PyVal
  | dict (kvs : List (PyVal × PyVal)) : PyVal
  | pyset (xs : List PyVal) : PyVal
  | path (s : String) : PyVal
  | isoObj (s : String) : PyVal
  | obj (s : String) : PyVal

/-- Decimal digits of a natural number, most significant first
(the digits of Python's `str(n)` for `n ≥ 0`). -/
def natDigits (n : Nat) : List Char :=
  if h : n < 10 then [Nat.digitChar n]
  else natDigits (n / 10) ++ [Nat.digitChar (n % 10)]
termination_by n
decreasing_by
  exact Nat.div_lt_self (by omega) (by omega)

/-- Python's `str()` of an integer. -/
def intStr : Int → String
  | .ofNat n => ⟨natDigits n⟩
  | .negSucc n => ⟨'-' :: natDigits (n + 1)⟩

/-- Abstraction of Python's `str()` of a float, rendered from the rational
model; emits only digits, `-` and `/`. -/
def floatStr (q : Rat) : String :=
  intStr q.num ++ "/" ++ ⟨natDigits q.den⟩

/-- Numeric view shared by Python `bool`/`int`/`float` for `==` purposes
(`True == 1`, `1 == 1.0`). -/
def toNumQ : PyVal → Option Rat
  | .bool b => some (if b then 1 else 0)
  | .int n => some (n : Rat)
  | .float q => some q
  | _ => Option.none

mutual

/-- Python `==` on embedded values: numeric cross-type equality, elementwise
list equality, order-insensitive dict equality, extensional set equality;
distinct non-numeric types never compare equal. -/
def pyEq : PyVal → PyVal → Bool
  | .none, .none => true
  | .str a, .str b => a == b
  | .list a, .list b => pyEqList a b
  | .dict a, .dict b => a.length == b.length && pyDictLe a b
  | .pyset a, .pyset b => pySetLe a b && pySetLe b a
  | .path a, .path b => a == b
  | .isoObj a, .isoObj b => a == b
  | .obj a, .obj b => a == b
  | a, b =>
    match toNumQ a, toNumQ b with
    | some x, some y => x == y
    | _, _ => false
termination_by a b => sizeOf a + sizeOf b
decreasing_by
  all_goals simp_all
  all_goals omega

def pyEqList : List PyVal → List PyVal → Bool
  | [], [] => true
  | a :: as_, b :: bs => pyEq a b && pyEqList as_ bs
  | _, _ => false
termination_by a b => sizeOf a + sizeOf b
decreasing_by
  all_goals simp_all
  all_goals omega

def pyDictLe : List (PyVal × PyVal) → List (PyVal × PyVal) → Bool
  | [], _ => true
  | (k, v) :: rest, d => pyDictMem k v d && pyDictLe rest d
termination_by a d => sizeOf a + sizeOf d
decreasing_by
  all_goals simp_all
  all_goals omega

def pyDictMem (k v : PyVal) : List (PyVal × PyVal) → Bool
  | [] => false
  | (k2, v2) :: rest => (pyEq k k2 && pyEq v v2) || pyDictMem k v rest
termination_by d => sizeOf k + sizeOf v + sizeOf d
decreasing_by
  all_goals simp_all
  all_goals omega

def pySetLe : List PyVal → List PyVal → Bool
  | [], _ => true
  | x :: rest, ys => pySetMem x ys && pySetLe rest ys
termination_by a b => sizeOf a + sizeOf b
decreasing_by
  all_goals simp_all
  all_goals omega

def pySetMem (x : PyVal) : List PyVal → Bool
  | [] => false
  | y :: rest => pyEq x y || pySetMem x rest
termination_by ys => sizeOf x + sizeOf ys
decreasing_by
  all_goals simp_all
  all_goals omega

end

mutual

/-- Python `repr()` of an embedded value (string quoting simplified:
escape sequences are not modelled). -/
def pyRepr : PyVal → String
  | .none => "None"
  | .bool true => "True"
  | .bool false => "False"
  | .int n => intStr n
  | .float q => floatStr q
  | .str s => "'" ++ s ++ "'"
  | .list xs => "[" ++ String.intercalate ", " (pyReprList xs) ++ "]"
  | .dict kvs => "\x7b" ++ String.intercalate ", " (pyReprKVs kvs) ++ "\x7d"
  | .pyset [] => "set()"
  | .pyset (x :: xs) => "\x7b" ++ String.intercalate ", " (pyReprList (x :: xs)) ++ "\x7d"
  | .path s => "PosixPath('" ++ s ++ "')"
  | .isoObj s => s
  | .obj s => s
termination_by v => sizeOf v
decreasing_by
  all_goals simp_all
  all_goals omega

def pyReprList : List PyVal → List String
  | [] => []
  | x :: rest => pyRepr x :: pyReprList rest
termination_by xs => sizeOf xs
decreasing_by
  all_goals simp_all
  all_goals omega

def pyReprKVs : List (PyVal × PyVal) → List String
  | [] => []
  | (k, v) :: rest => (pyRepr k ++ ": " ++ pyRepr v) :: pyReprKVs rest
termination_by kvs => sizeOf kvs
decreasing_by
  all_goals simp_all
  all_goals omega

end

/-- Python `str()`: differs from `repr()` only on strings and paths among the
embedded constructors (container `str` delegates to element `repr`). -/
def pyStr (v : PyVal) : String :=
  match v with
  | .str s => s
  | .path s => s
  | _ => pyRepr v

/-! ## Trajectory data model (`types.py`) -/

/-- `TurnRole`: the closed role set. -/
inductive TurnRole where
  | system
  | user
  | assistant
  | tool
deriving DecidableEq

/-- The string value of a role (`TurnRole.value` in the source enum). -/
def TurnRole.value : TurnRole → String
  | .system => "system"
  | .user => "user"
  | .assistant => "assistant"
  | .tool => "tool"

/-- `TurnRole(raw)`: Python enum lookup by value; `Option.none` models the
`ValueError` for a string outside the closed set. -/
def TurnRole.ofString (s : String) : Option TurnRole :=
  if s = "system" then some .system
  else if s = "user" then some .user
  else if s = "assistant" then some .assistant
  else if s = "tool" then some .tool
  else Option.none

/-- `ToolCall`: `arguments` and `result` are embedded as raw `PyVal` because
the Python runtime does not enforce the annotated types. -/
structure ToolCall where
  id : String
  function : String
  arguments : PyVal
  result : PyVal := .none
  duration_ms : Option Rat := Option.none

structure Timing where
  latency_ms : Option Rat := Option.none
  time_to_first_token_ms : Option Rat := Option.none

structure TokenUsage where
  prompt : Int := 0
  completion : Int := 0
  total : Int := 0

structure Turn where
  index : Int
  role : TurnRole
  content : Option String := Option.none
  tool_calls : List ToolCall := []
  timing : Option Timing := Option.none
  tokens : Option TokenUsage := Option.none

structure ModelInfo where
  provider : String
  model : String
  temperature : Rat := 0
  top_p : Rat := 1
  max_tokens : Int := 4096
  seed : Option Int := Option.none

structure RunMetadata where
  scenario : String := ""
  tags : List PyVal := []
  description : String := ""

structure RunSummary where
  total_turns : Int := 0
  total_duration_ms : Rat := 0
  total_tokens : TokenUsage := {}
  total_tool_calls : Int := 0
  estimated_cost_usd : Rat := 0

structure AgentRun where
  schema_version : String := "1.0.0"
  run_id : String := ""
  recorded_at : String := ""
  recorder_version : String := ""
  sdk : String := "agentcontract-python"
  model : ModelInfo := { provider := "", model := "" }
  metadata : RunMetadata := {}
  summary : RunSummary := {}
  turns : List Turn := []

/-! ## Cassette codec (`serialization.py`) -/

/-- `dict.get(k)` on an embedded dict body: the value at the first entry whose
key is the string `k`, `None` when absent (a well-formed Python dict has no
duplicate keys, so first-match is exact). -/
def dGet : List (PyVal × PyVal) → String → PyVal
  | [], _ => .none
  | (.str k2, v) :: rest, k => if k2 = k then v else dGet rest k
  | _ :: rest, k => dGet rest k

/-- `_coerce_dict`: normalize optional object sections that may be null. -/
def coerceDictKVs : PyVal → List (PyVal × PyVal)
  | .dict kvs => kvs
  | _ => []

/-- `_coerce_list`: normalize optional array sections that may be null. -/
def coerceList : PyVal → List PyVal
  | .list xs => xs
  | _ => []

/-- `_coerce_tool_arguments`: normalize tool-call argument payloads. -/
def coerceToolArguments : PyVal → PyVal
  | .dict kvs => .dict kvs
  | _ => .dict []

/-- `_coerce_str`: `None` keeps the default, strings pass through, anything
else becomes its `str()` form. -/
def coerceStr (v : PyVal) (default : String := "") : String :=
  match v with
  | .none => default
  | .str s => s
  | v => pyStr v

/-- Digits-only parse used by the `int(string)` model. -/
def digitsToNat (cs : List Char) : Option Nat :=
  if cs.isEmpty then Option.none
  else if cs.all Char.isDigit then
    some (cs.foldl (fun acc c => acc * 10 + (c.toNat - 48)) 0)
  else Option.none

/-- Python `int(s)` on a string: optional sign followed by digits
(whitespace/underscore tolerance is not modelled); `Option.none` models
`ValueError`. -/
def parseIntStr (s : String) : Option Int :=
  match s.data with
  | '-' :: rest => (digitsToNat rest).map (fun n => -(n : Int))
  | '+' :: rest => (digitsToNat rest).map (fun n => (n : Int))
  | ds => (digitsToNat ds).map (fun n => (n : Int))

/-- Truncation toward zero: the value of Python `int(float)`. -/
def ratTrunc (q : Rat) : Int :=
  if 0 ≤ q then q.floor else -((-q).floor)

/-- Python `int(value)`: `Option.none` models `TypeError`/`ValueError`. -/
def pyInt? : PyVal → Option Int
  | .bool b => some (if b then 1 else 0)
  | .int n => some n
  | .float q => some (ratTrunc q)
  | .str s => parseIntStr s
  | _ => Option.none

/-- Split a character list on a separator (the parts, in order; computable
by kernel reduction, unlike the byte-based `String` primitives). -/
def splitOnCharAux (c : Char) : List Char → List Char → List (List Char)
  | [], cur => [cur.reverse]
  | x :: rest, cur =>
    if x = c then cur.reverse :: splitOnCharAux c rest []
    else splitOnCharAux c rest (x :: cur)

def splitOnChar (c : Char) (cs : List Char) : List (List Char) :=
  splitOnCharAux c cs []

/-- Unsigned decimal-fraction parse used by the `float(string)` model. -/
def parseUnsignedFloat (cs : List Char) : Option Rat :=
  match splitOnChar '.' cs with
  | [ip] =>
    if ip.all Char.isDigit ∧ ¬ ip.isEmpty then
      some ((ip.foldl (fun acc c => acc * 10 + (c.toNat - 48)) 0 : Nat) : Rat)
    else Option.none
  | [ip, fp] =>
    if ip.all Char.isDigit ∧ fp.all Char.isDigit ∧ ¬ (ip.isEmpty ∧ fp.isEmpty) then
      some (((ip.foldl (fun acc c => acc * 10 + (c.toNat - 48)) 0 : Nat) : Rat)
        + ((fp.foldl (fun acc c => acc * 10 + (c.toNat - 48)) 0 : Nat) : Rat) / ((10 : Rat) ^ fp.length))
    else Option.none
  | _ => Option.none

/-- Python `float(s)` on a string (exponent forms not modelled). -/
def parseFloatStr (s : String) : Option Rat :=
  match s.data with
  | '-' :: rest => (parseUnsignedFloat rest).map Neg.neg
  | '+' :: rest => parseUnsignedFloat rest
  | ds => parseUnsignedFloat ds

/-- Python `float(value)`: `Option.none` models `TypeError`/`ValueError`. -/
def pyFloat? : PyVal → Option Rat
  | .bool b => some (if b then 1 else 0)
  | .int n => some (n : Rat)
  | .float q => some q
  | .str s => parseFloatStr s
  | _ => Option.none

/-- `_coerce_int`. -/
def coerceInt (v : PyVal) (default : Int := 0) : Int :=
  match v with
  | .none => default
  | v => (pyInt? v).getD default

/-- `_coerce_optional_int`. -/
def coerceOptionalInt (v : PyVal) : Option Int :=
  match v with
  | .none => Option.none
  | v => pyInt? v

/-- `_coerce_float`. -/
def coerceFloat (v : PyVal) (default : Rat := 0) : Rat :=
  match v with
  | .none => default
  | v => (pyFloat? v).getD default

/-- `_coerce_optional_float`. -/
def coerceOptionalFloat (v : PyVal) : Option Rat :=
  match v with
  | .none => Option.none
  | v => pyFloat? v

/-- Stable insertion step for `sorted(value, key=repr)`: insert before the
first strictly greater key. -/
def setSortInsert (x : PyVal) : List PyVal → List PyVal
  | [] => [x]
  | y :: ys => if pyRepr x < pyRepr y then x :: y :: ys else y :: setSortInsert x ys

/-- Python `sorted(xs, key=repr)`: a stable sort by the `repr` key. -/
def setSorted : List PyVal → List PyVal
  | [] => []
  | x :: xs => setSortInsert x (setSorted xs)

theorem sizeOf_setSortInsert (x : PyVal) (l : List PyVal) :
    sizeOf (setSortInsert x l) = 1 + sizeOf x + sizeOf l := by
  induction l with
  | nil => simp [setSortInsert]
  | cons y ys ih =>
    simp only [setSortInsert]
    by_cases h : pyRepr x < pyRepr y
    · simp only [if_pos h]
      simp <;> omega
    · simp only [if_neg h]
      simp [ih] <;> omega

theorem sizeOf_setSorted (l : List PyVal) : sizeOf (setSorted l) = sizeOf l := by
  induction l with
  | nil => simp [setSorted]
  | cons x xs ih => simp [setSorted, sizeOf_setSortInsert, ih]

mutual

/-- `_to_json_compatible`: recursive normalization so `json.dump` never
crashes.  Scalars pass through; dict keys become `str(key)`; lists/tuples map
elementwise; sets become a list sorted by the `repr` key; `Path` and
`isoformat()`-exposing objects become strings; anything else falls back to
`str(value)`. -/
def toJsonCompatible : PyVal → PyVal
  | .none => .none
  | .bool b => .bool b
  | .int n => .int n
  | .float q => .float q
  | .str s => .str s
  | .dict kvs => .dict (toJsonKVs kvs)
  | .list xs => .list (toJsonList xs)
  | .pyset xs => .list (toJsonList (setSorted xs))
  | .path s => .str s
  | .isoObj s => .str s
  | .obj s => .str s
termination_by v => sizeOf v
decreasing_by
  all_goals simp_all [sizeOf_setSorted]
  all_goals omega

def toJsonList : List PyVal → List PyVal
  | [] => []
  | x :: rest => toJsonCompatible x :: toJsonList rest
termination_by xs => sizeOf xs
decreasing_by
  all_goals simp_all
  all_goals omega

def toJsonKVs : List (PyVal × PyVal) → List (PyVal × PyVal)
  | [] => []
  | (k, v) :: rest => (.str (pyStr k), toJsonCompatible v) :: toJsonKVs rest
termination_by kvs => sizeOf kvs
decreasing_by
  all_goals simp_all
  all_goals omega

end

mutual

/-- A value already in the JSON fragment of `PyVal` (`json.load` output):
scalars, lists of such, and dicts with string keys. -/
def isJson : PyVal → Bool
  | .none => true
  | .bool _ => true
  | .int _ => true
  | .float _ => true
  | .str _ => true
  | .list xs => isJsonList xs
  | .dict kvs => isJsonKVs kvs
  | _ => false
termination_by v => sizeOf v
decreasing_by
  all_goals simp_all
  all_goals omega

def isJsonList : List PyVal → Bool
  | [] => true
  | x :: rest => isJson x && isJsonList rest
termination_by xs => sizeOf xs
decreasing_by
  all_goals simp_all
  all_goals omega

def isJsonKVs : List (PyVal × PyVal) → Bool
  | [] => true
  | (.str _, v) :: rest => isJson v && isJsonKVs rest
  | _ => false
termination_by kvs => sizeOf kvs
decreasing_by
  all_goals simp_all
  all_goals omega

end

/-- Encode an optional float field (`None` stays null). -/
def optFloatVal : Option Rat → PyVal
  | some q => .float q
  | _ => .none

/-- Encode an optional int field (`None` stays null). -/
def optIntVal : Option Int → PyVal
  | some n => .int n
  | _ => .none

/-- One entry of the encoded `tool_calls` array (`_turn_to_dict`). -/
def toolCallToDict (tc : ToolCall) : PyVal :=
  .dict [(.str "id", .str tc.id),
         (.str "function", .str tc.function),
         (.str "arguments", tc.arguments),
         (.str "result", tc.result),
         (.str "duration_ms", optFloatVal tc.duration_ms)]

/-- The entry list of `_turn_to_dict`: `content`/`tool_calls`/`timing`/
`tokens` keys are written only when truthy (`None` content, empty call list,
`None` timing/tokens are omitted; the `Timing`/`TokenUsage` dataclasses are
always truthy when present). -/
def turnBody (turn : Turn) : List (PyVal × PyVal) :=
  ([(.str "index", .int turn.index), (.str "role", .str turn.role.value)]
    ++ (match turn.content with
        | some c => [((.str "content" : PyVal), (.str c : PyVal))]
        | _ => [])
    ++ (if turn.tool_calls.isEmpty then []
        else [((.str "tool_calls" : PyVal), (.list (turn.tool_calls.map toolCallToDict) : PyVal))])
    ++ (match turn.timing with
        | some tm => [((.str "timing" : PyVal),
            (.dict [(.str "latency_ms", optFloatVal tm.latency_ms),
                    (.str "time_to_first_token_ms", optFloatVal tm.time_to_first_token_ms)] : PyVal))]
        | _ => [])
    ++ (match turn.tokens with
        | some tk => [((.str "tokens" : PyVal),
            (.dict [(.str "prompt", .int tk.prompt),
                    (.str "completion", .int tk.completion),
                    (.str "total", .int tk.total)] : PyVal))]
        | _ => []))

/-- `_turn_to_dict`. -/
def turnToDict (turn : Turn) : PyVal :=
  .dict (turnBody turn)

/-- The entry list of the document built by `run_to_dict` before
normalization. -/
def runBody (run : AgentRun) : List (PyVal × PyVal) :=
  [
    (.str "schema_version", .str run.schema_version),
    (.str "run_id", .str run.run_id),
    (.str "source", .dict [
      (.str "recorded_at", .str run.recorded_at),
      (.str "recorder_version", .str run.recorder_version),
      (.str "sdk", .str run.sdk)]),
    (.str "model", .dict [
      (.str "provider", .str run.model.provider),
      (.str "model", .str run.model.model),
      (.str "temperature", .float run.model.temperature),
      (.str "top_p", .float run.model.top_p),
      (.str "max_tokens", .int run.model.max_tokens),
      (.str "seed", optIntVal run.model.seed)]),
    (.str "metadata", .dict [
      (.str "scenario", .str run.metadata.scenario),
      (.str "tags", .list run.metadata.tags),
      (.str "description", .str run.metadata.description)]),
    (.str "summary", .dict [
      (.str "total_turns", .int run.summary.total_turns),
      (.str "total_duration_ms", .float run.summary.total_duration_ms),
      (.str "total_tokens", .dict [
        (.str "prompt", .int run.summary.total_tokens.prompt),
        (.str "completion", .int run.summary.total_tokens.completion),
        (.str "total", .int run.summary.total_tokens.total)]),
      (.str "total_tool_calls", .int run.summary.total_tool_calls),
      (.str "estimated_cost_usd", .float run.summary.estimated_cost_usd)]),
    (.str "turns", .list (run.turns.map turnToDict))]

/-- `run_to_dict`: serialize an `AgentRun` to a JSON-compatible document. -/
def run_to_dict (run : AgentRun) : PyVal :=
  toJsonCompatible (.dict (runBody run))

/-- One entry of the decoded `tool_calls` comprehension: a dict entry is
decoded field-by-field, anything else is dropped (`Option.none`). -/
def toolCallFromDict (tc : PyVal) : Option ToolCall :=
  match tc with
  | .dict kv => some
      { id := coerceStr (dGet kv "id") ""
        function := coerceStr (dGet kv "function") ""
        arguments := coerceToolArguments (dGet kv "arguments")
        result := dGet kv "result"
        duration_ms := coerceOptionalFloat (dGet kv "duration_ms") }
  | _ => Option.none

/-- The `isinstance(t, dict)` guard of the `turns` comprehension. -/
def dictEntry : PyVal → Option (List (PyVal × PyVal))
  | .dict kv => some kv
  | _ => Option.none

/-- `_turn_from_dict`: decode one turn dict; errors exactly when `role` is
missing/empty or outside the closed set. -/
def turnFromDict (data : List (PyVal × PyVal)) : Except String Turn :=
  let tool_calls := (coerceList (dGet data "tool_calls")).filterMap toolCallFromDict
  let timing :=
    match dGet data "timing" with
    | .dict kv => some
        { latency_ms := coerceOptionalFloat (dGet kv "latency_ms")
          time_to_first_token_ms := coerceOptionalFloat (dGet kv "time_to_first_token_ms") }
    | _ => (Option.none : Option Timing)
  let tokens :=
    match dGet data "tokens" with
    | .dict kv => some
        { prompt := coerceInt (dGet kv "prompt") 0
          completion := coerceInt (dGet kv "completion") 0
          total := coerceInt (dGet kv "total") 0 }
    | _ => (Option.none : Option TokenUsage)
  let content :=
    match dGet data "content" with
    | .none => (Option.none : Option String)
    | .str s => some s
    | v => some (pyStr v)
  let raw_role := coerceStr (dGet data "role") ""
  if raw_role = "" then .error "Turn is missing required field 'role'"
  else
    match TurnRole.ofString raw_role with
    | some role => .ok
        { index := coerceInt (dGet data "index") 0
          role := role
          content := content
          tool_calls := tool_calls
          timing := timing
          tokens := tokens }
    | _ => .error ("Invalid turn role: '" ++ raw_role ++ "'")

/-- Effectful map over a list in `Except` (the raising list comprehension):
the first error aborts, otherwise the results are collected in order. -/
def mapME {α β : Type} (f : α → Except String β) : List α → Except String (List β)
  | [] => .ok []
  | x :: rest =>
    match f x with
    | .error e => .error e
    | .ok y =>
      match mapME f rest with
      | .error e => .error e
      | .ok ys => .ok (y :: ys)

/-- `run_from_dict`: deserialize a document (a dict body) into an `AgentRun`;
non-dict entries of `turns` are dropped before decoding. -/
def run_from_dict (data : List (PyVal × PyVal)) : Except String AgentRun := do
  let source := coerceDictKVs (dGet data "source")
  let model_data := coerceDictKVs (dGet data "model")
  let meta := coerceDictKVs (dGet data "metadata")
  let summary_data := coerceDictKVs (dGet data "summary")
  let tokens_data := coerceDictKVs (dGet summary_data "total_tokens")
  let tags :=
    match dGet meta "tags" with
    | .list xs => xs
    | _ => []
  let turnDicts := (coerceList (dGet data "turns")).filterMap dictEntry
  let turns ← mapME turnFromDict turnDicts
  pure
    { schema_version := coerceStr (dGet data "schema_version") "1.0.0"
      run_id := coerceStr (dGet data "run_id") ""
      recorded_at := coerceStr (dGet source "recorded_at") ""
      recorder_version := coerceStr (dGet source "recorder_version") ""
      sdk := coerceStr (dGet source "sdk") "agentcontract-python"
      model := {
        provider := coerceStr (dGet model_data "provider") ""
        model := coerceStr (dGet model_data "model") ""
        temperature := coerceFloat (dGet model_data "temperature") 0
        top_p := coerceFloat (dGet model_data "top_p") 1
        max_tokens := coerceInt (dGet model_data "max_tokens") 4096
        seed := coerceOptionalInt (dGet model_data "seed") }
      metadata := {
        scenario := coerceStr (dGet meta "scenario") ""
        tags := tags
        description := coerceStr (dGet meta "description") "" }
      summary := {
        total_turns := coerceInt (dGet summary_data "total_turns") 0
        total_duration_ms := coerceFloat (dGet summary_data "total_duration_ms") 0
        total_tokens := {
          prompt := coerceInt (dGet tokens_data "prompt") 0
          completion := coerceInt (dGet tokens_data "completion") 0
          total := coerceInt (dGet tokens_data "total") 0 }
        total_tool_calls := coerceInt (dGet summary_data "total_tool_calls") 0
        estimated_cost_usd := coerceFloat (dGet summary_data "estimated_cost_usd") 0 }
      turns := turns }

/-! ## Recorder (`recorder/core.py`) -/

/-- Recorder state: the accumulating run plus the per-session counters.
`run_id`, `recorded_at` and `recorder_version` (a uuid, a wall-clock
timestamp and the package version in the source) are inputs of `init`. -/
structure Recorder where
  run : AgentRun
  start_time : Option Rat := Option.none
  turn_index : Int := 0
  total_tool_calls : Int := 0
  total_prompt_tokens : Int := 0
  total_completion_tokens : Int := 0

/-- `Recorder.__init__`. -/
def Recorder.init (run_id recorded_at recorder_version : String)
    (scenario : String := "") (tags : List PyVal := []) (description : String := "")
    (model_provider : String := "") (model_name : String := "")
    (temperature : Rat := 0) (seed : Option Int := Option.none) : Recorder :=
  { run := {
      run_id := run_id
      recorded_at := recorded_at
      recorder_version := recorder_version
      model := {
        provider := model_provider
        model := model_name
        temperature := temperature
        seed := seed }
      metadata := {
        scenario := scenario
        tags := tags
        description := description } } }

/-- `recording()` entry: start the monotonic timer (`now` is the reading of
`time.monotonic()`, in seconds). -/
def Recorder.beginSession (rec : Recorder) (now : Rat) : Recorder :=
  { rec with start_time := some now }

/-- `recording()` exit: finalize the summary from the elapsed time and the
running counters. -/
def Recorder.endSession (rec : Recorder) (now : Rat) : Recorder :=
  let elapsed := match rec.start_time with
    | some t0 => now - t0
    | _ => 0
  { rec with run := { rec.run with summary := {
      total_turns := (rec.run.turns.length : Int)
      total_duration_ms := elapsed * 1000
      total_tokens := {
        prompt := rec.total_prompt_tokens
        completion := rec.total_completion_tokens
        total := rec.total_prompt_tokens + rec.total_completion_tokens }
      total_tool_calls := rec.total_tool_calls } } }

/-- One entry of `add_turn`'s tool-call parsing loop: `None` ids/functions
default to `""`, other non-strings are `str()`-coerced, non-dict arguments
become `{}`, the result passes through, the duration is float-coerced. -/
def parseToolCallEntry (kv : List (PyVal × PyVal)) : ToolCall :=
  { id := match dGet kv "id" with
      | .none => ""
      | v => pyStr v
    function := match dGet kv "function" with
      | .none => ""
      | v => pyStr v
    arguments := match dGet kv "arguments" with
      | .dict kvs => .dict kvs
      | _ => .dict []
    result := dGet kv "result"
    duration_ms := coerceOptionalFloat (dGet kv "duration_ms") }

/-- `Recorder.add_turn`.  Mirrors the source's statement order: content and
tool calls are normalized and the session counters updated *before* the role
is validated, so an invalid role still returns the mutated counters.  The
`Except` carries the `ValueError` of `TurnRole(role)`. -/
def Recorder.add_turn (rec : Recorder) (role : String)
    (content : Option PyVal := Option.none)
    (tool_calls : List PyVal := [])
    (latency_ms : PyVal := .none)
    (prompt_tokens : PyVal := .int 0)
    (completion_tokens : PyVal := .int 0) : Except String Turn × Recorder :=
  let normalized_content := content.map (fun c =>
    match c with
    | .str s => s
    | v => pyStr v)
  let parsed_tool_calls := tool_calls.filterMap (fun tc =>
    match tc with
    | .dict kv => some (parseToolCallEntry kv)
    | _ => Option.none)
  let normalized_latency_ms := coerceOptionalFloat latency_ms
  let timing := normalized_latency_ms.map (fun l => ({ latency_ms := some l } : Timing))
  let np := coerceInt prompt_tokens 0
  let nc := coerceInt completion_tokens 0
  let tokens : Option TokenUsage :=
    if np ≠ 0 ∨ nc ≠ 0 then some { prompt := np, completion := nc, total := np + nc }
    else Option.none
  let rec' := { rec with
    total_tool_calls := rec.total_tool_calls + (parsed_tool_calls.length : Int)
    total_prompt_tokens := rec.total_prompt_tokens + (if np ≠ 0 ∨ nc ≠ 0 then np else 0)
    total_completion_tokens := rec.total_completion_tokens + (if np ≠ 0 ∨ nc ≠ 0 then nc else 0) }
  match TurnRole.ofString role with
  | some r =>
    let turn : Turn := {
      index := rec.turn_index
      role := r
      content := normalized_content
      tool_calls := parsed_tool_calls
      timing := timing
      tokens := tokens }
    (.ok turn,
     { rec' with
        run := { rec'.run with turns := rec'.run.turns ++ [turn] }
        turn_index := rec.turn_index + 1 })
  | _ => (.error ("'" ++ role ++ "' is not a valid TurnRole"), rec')

/-! ## Replay engine (`replay/engine.py`) -/

/-- `ReplayResult`; the counters are Python ints that are only ever
incremented by non-negative amounts, embedded as `Nat`. -/
structure ReplayResult where
  run : AgentRun
  matched_tools : Nat := 0
  mismatched_tools : Nat := 0
  missing_tools : Nat := 0
  extra_tools : Nat := 0
  errors : List String := []

/-- `ReplayResult.ok`. -/
def ReplayResult.ok (r : ReplayResult) : Bool :=
  r.errors.length == 0 && r.mismatched_tools == 0

/-- Pointwise update of a function-backed string map (`dict` with a default,
as read through `.get(k, default)`). -/
def updateFn {α : Type} (f : String → α) (k : String) (v : α) : String → α :=
  fun x => if x = k then v else f x

/-- `ToolStub` state: `_tool_calls` as a map from function name to its FIFO
queue of `(arguments, result)` pairs, `_call_counts` as a map with default 0.
(The dict insertion order, only observed by `finish(None)`, is not needed by
any claim and is not carried.) -/
structure ToolStub where
  queues : String → List (PyVal × PyVal)
  call_counts : String → Nat

/-- `ToolStub.__init__`: index all tool calls by function name in recorded
order (turn order, then within-turn order). -/
def ToolStub.ofRun (run : AgentRun) : ToolStub :=
  { queues := run.turns.foldl (fun acc turn =>
      turn.tool_calls.foldl (fun acc tc =>
        updateFn acc tc.function (acc tc.function ++ [(tc.arguments, tc.result)])) acc)
      (fun _ => [])
    call_counts := fun _ => 0 }

/-- The two caller-visible replay exceptions. -/
inductive StubErr where
  | exhausted (message : String) (requested recorded : Nat)
  | argumentsMismatch (message : String)

/-- `ToolStub.get_result`: FIFO replay of recorded results.  An error raise
leaves the state untouched (the caller keeps the unmodified stub); a success
returns the recorded result and the stub with the per-function count
advanced. -/
def ToolStub.get_result (s : ToolStub) (function : String)
    (arguments : Option PyVal := Option.none) : Except StubErr (PyVal × ToolStub) :=
  let count := s.call_counts function
  let calls := s.queues function
  if h : count ≥ calls.length then
    .error (.exhausted
      ("No more recorded results for tool '" ++ function ++ "' (called "
        ++ intStr (count + 1) ++ " times, only " ++ intStr calls.length ++ " recorded)")
      (count + 1) calls.length)
  else
    let entry := calls.get ⟨count, by omega⟩
    if arguments.isSome ∧ ¬ (pyEq (arguments.getD .none) entry.1) then
      .error (.argumentsMismatch
        ("Tool '" ++ function ++ "' call " ++ intStr (count + 1)
          ++ " argument mismatch: expected " ++ pyStr entry.1 ++ ", got "
          ++ pyStr (arguments.getD .none)))
    else
      .ok (entry.2, { s with call_counts := updateFn s.call_counts function (count + 1) })

/-- `ToolStub.has_results`. -/
def ToolStub.has_results (s : ToolStub) (function : String) : Bool :=
  s.call_counts function < (s.queues function).length

/-- Diagnostic for a role mismatch at a common position. -/
def roleErrMsg (i : Nat) (expected actual : Turn) : String :=
  "Turn " ++ intStr i ++ ": expected role=" ++ expected.role.value
    ++ ", got role=" ++ actual.role.value

/-- Diagnostic for a tool-call count mismatch at a common position. -/
def countErrMsg (i : Nat) (expected actual : Turn) : String :=
  "Turn " ++ intStr i ++ ": expected " ++ intStr expected.tool_calls.length
    ++ " tool calls, got " ++ intStr actual.tool_calls.length

/-- Diagnostic for an extra actual turn beyond the recorded trajectory. -/
def extraTurnErrMsg (i : Nat) (actual : Turn) : String :=
  "Extra turn " ++ intStr i ++ ": role=" ++ actual.role.value ++ ", content="
    ++ (match actual.content with
        | some c => (c.take 50 : String)
        | _ => "(none)") ++ "..."

/-- The pairwise tool-call comparison run when the counts at a common
position are equal: `for j, (act_tc, exp_tc) in enumerate(zip(...))`,
rendered as a parallel walk carrying the pair index `j` (zip stops at the
shorter list). -/
def comparePairs (i j : Nat) : List ToolCall → List ToolCall → ReplayResult → ReplayResult
  | act_tc :: as_, exp_tc :: bs, r =>
    let r' :=
      if act_tc.function ≠ exp_tc.function then
        { r with mismatched_tools := r.mismatched_tools + 1
                 errors := r.errors ++ ["Turn " ++ intStr i ++ ", tool " ++ intStr j
                   ++ ": expected function='" ++ exp_tc.function
                   ++ "', got function='" ++ act_tc.function ++ "'"] }
      else if ¬ pyEq act_tc.arguments exp_tc.arguments then
        { r with mismatched_tools := r.mismatched_tools + 1
                 errors := r.errors ++ ["Turn " ++ intStr i ++ ", tool " ++ intStr j
                   ++ " (" ++ act_tc.function ++ "): arguments differ"] }
      else
        { r with matched_tools := r.matched_tools + 1 }
    comparePairs i (j + 1) as_ bs r'
  | _, _, r => r

/-- The body of `finish`'s `for i, actual in enumerate(actual_turns)` loop,
rendered as a parallel walk over the actual turns and the recorded suffix
(`i >= len(recorded_turns)` corresponds to the recorded suffix being
exhausted; `recorded_turns[i]` is the suffix head). -/
def finishLoop (i : Nat) : List Turn → List Turn → ReplayResult → ReplayResult
  | [], _, res => res
  | actual :: rest, [], res =>
    let extra_call_count := actual.tool_calls.length
    let res1 :=
      if extra_call_count ≠ 0 then
        { res with extra_tools := res.extra_tools + extra_call_count
                   mismatched_tools := res.mismatched_tools + extra_call_count }
      else res
    finishLoop (i + 1) rest []
      { res1 with errors := res1.errors ++ [extraTurnErrMsg i actual] }
  | actual :: rest, expected :: rec_rest, res =>
    let res1 :=
      if actual.role ≠ expected.role then
        { res with errors := res.errors ++ [roleErrMsg i expected actual] }
      else res
    let res2 :=
      if actual.tool_calls.length ≠ expected.tool_calls.length then
        let la := actual.tool_calls.length
        let le := expected.tool_calls.length
        let res' :=
          if la > le then { res1 with extra_tools := res1.extra_tools + (la - le) }
          else { res1 with missing_tools := res1.missing_tools + (le - la) }
        { res' with mismatched_tools := res'.mismatched_tools + ((la : Int) - le).natAbs
                    errors := res'.errors ++ [countErrMsg i expected actual] }
      else comparePairs i 0 actual.tool_calls expected.tool_calls res1
    finishLoop (i + 1) rest rec_rest res2

/-- `ReplayEngine.finish(actual_turns)` for a supplied (non-`None`) turn
list: the turn-by-turn comparison followed by the missing-turns check. -/
def finish (recorded : AgentRun) (actual_turns : List Turn) : ReplayResult :=
  let res := finishLoop 0 actual_turns recorded.turns { run := recorded }
  if actual_turns.length < recorded.turns.length then
    let missing := recorded.turns.length - actual_turns.length
    let missing_turns := recorded.turns.drop actual_turns.length
    let missing_call_count : Nat := (missing_turns.map (fun t => t.tool_calls.length)).sum
    let res1 :=
      if missing_call_count ≠ 0 then
        { res with missing_tools := res.missing_tools + missing_call_count
                   mismatched_tools := res.mismatched_tools + missing_call_count }
      else res
    { res1 with errors := res1.errors ++ ["Missing " ++ intStr missing
        ++ " turns (recorded " ++ intStr recorded.turns.length ++ ", got "
        ++ intStr actual_turns.length ++ ")"] }
  else res

/-! ## Assertion / policy engine (`assertions/engine.py`, specs from
`config.py`) -/

/-- `AssertionSpec` (config value object).  `value` and `schema` are typed
`str | None` / `dict | None` in the source but unenforced at runtime, so they
are embedded as raw `PyVal` with `.none` for Python `None`. -/
structure AssertionSpec where
  type : String
  target : String := ""
  value : PyVal := .none
  threshold : PyVal := .none
  prompt : Option String := Option.none
  schema : PyVal := .none
  judge_model : Option String := Option.none
  tools : Option (List String) := Option.none
  block : Option (List String) := Option.none

/-- `PolicySpec` (config value object). -/
structure PolicySpec where
  name : String
  type : String
  target : String := ""
  tools : List String := []
  block : List String := []

/-- `AssertionResult`. -/
structure AssertionResult where
  assertion : AssertionSpec
  passed : Bool
  message : String := ""
  details : PyVal := .dict []

/-- `ContractResult`. -/
structure ContractResult where
  scenario : String
  results : List AssertionResult := []

/-- `ContractResult.passed`: conjunction of all individual results. -/
def ContractResult.passed (c : ContractResult) : Bool :=
  c.results.all (fun r => r.passed)

/-- `ContractResult.failed_count`. -/
def ContractResult.failed_count (c : ContractResult) : Nat :=
  (c.results.filter (fun r => ¬ r.passed)).length

/-- Outcome of `jsonschema.validate`: success, a caught `ValidationError`,
or any other exception (e.g. `SchemaError`), which escapes the local
handler. -/
inductive ValidateOutcome where
  | ok
  | invalid (msg : String)
  | err (msg : String)

/-- The two external libraries the engine calls (`re.search` and
`jsonschema.validate`), abstracted as parameters: every claim proved below
holds for an arbitrary implementation.  `reSearch pat text` is
`bool(re.search(pat, text))`, with `.error` modelling `re.error`. -/
structure PyExternal where
  reSearch : String → String → Except String Bool
  jsValidate : PyVal → PyVal → ValidateOutcome

/-- `needle` starts the character list `hay`. -/
def startsWithChars : List Char → List Char → Bool
  | _, [] => true
  | [], _ :: _ => false
  | h :: t, nh :: nt => h == nh && startsWithChars t nt

/-- Python `needle in hay` on strings: substring containment. -/
def containsSubChars : List Char → List Char → Bool
  | [], needle => startsWithChars [] needle
  | h :: t, needle => startsWithChars (h :: t) needle || containsSubChars t needle

def strContainsSub (hay needle : String) : Bool :=
  containsSubChars hay.data needle.data

/-- `s.startswith(p)` over the character model. -/
def pyStartsWith (s p : String) : Bool :=
  startsWithChars s.data p.data

/-- One fuel-indexed pass of `str.replace` for a non-empty pattern:
non-overlapping, left to right (fuel = remaining length suffices since each
match consumes at least one character). -/
def replaceFuel (pat repl : List Char) : Nat → List Char → List Char
  | 0, hay => hay
  | _ + 1, [] => []
  | fuel + 1, c :: rest =>
    if pat.isEmpty = false ∧ startsWithChars (c :: rest) pat then
      repl ++ replaceFuel pat repl fuel ((c :: rest).drop pat.length)
    else c :: replaceFuel pat repl fuel rest

/-- Python `s.replace(pat, repl)` for a non-empty pattern. -/
def pyReplace (s pat repl : String) : String :=
  ⟨replaceFuel pat.data repl.data (s.data.length + 1) s.data⟩

/-- Rejoin split parts with `':'` (the tail of a bounded `split`). -/
def joinColon : List (List Char) → List Char
  | [] => []
  | p :: ps => p ++ ps.foldl (fun acc q => acc ++ ':' :: q) []

/-- `target.split(":", 2)`: at most three parts, the tail rejoined. -/
def pySplit2 (s : String) : List String :=
  match splitOnChar ':' s.data with
  | a :: b :: c :: rest => [⟨a⟩, ⟨b⟩, ⟨joinColon (c :: rest)⟩]
  | parts => parts.map (fun p => (⟨p⟩ : String))

/-- `_get_all_tool_calls`: all calls as (function, arguments, result) in
trajectory order. -/
def allToolCalls (run : AgentRun) : List (String × PyVal × PyVal) :=
  run.turns.foldl (fun acc t =>
    acc ++ t.tool_calls.map (fun tc => (tc.function, tc.arguments, tc.result))) []

/-- `_resolve_target`: map a target expression to a value pulled from the
run.  The `Except` carries the `ValueError` of `int(raw_idx)` on a
non-numeric `turn:` index, the one statement here that can raise. -/
def resolveTarget (run : AgentRun) (target : String) : Except String PyVal :=
  if target = "final_response" then
    match (run.turns.reverse).find? (fun t => t.role = TurnRole.assistant ∧ t.content.isSome) with
    | some t => .ok (.str (t.content.getD ""))
    | _ => .ok .none
  else if target = "full_conversation" then
    .ok (.str (String.intercalate "\n" (run.turns.filterMap (fun t =>
      t.content.map (fun c => t.role.value ++ ": " ++ c)))))
  else if pyStartsWith target "turn:" then
    let raw_idx : String := ⟨target.data.drop 5⟩
    match parseIntStr raw_idx with
    | some idx =>
      if h : 0 ≤ idx ∧ idx < run.turns.length then
        .ok (match (run.turns.get ⟨idx.toNat, by omega⟩).content with
          | some c => .str c
          | _ => .none)
      else .ok .none
    | _ => .error ("invalid literal for int() with base 10: '" ++ raw_idx ++ "'")
  else if pyStartsWith target "tool_call:" then
    let parts := pySplit2 target
    match parts with
    | _ :: func_name :: restParts =>
      if func_name = "" then .ok .none
      else
        let field_name := restParts.headD "arguments"
        match (allToolCalls run).find? (fun c => c.1 = func_name) with
        | some c =>
          if field_name = "arguments" then .ok c.2.1
          else if field_name = "result" then .ok c.2.2
          else .ok .none
        | _ => .ok .none
    | _ => .ok .none
  else .ok .none

/-- Python `value is None` (identity with the `None` singleton). -/
def PyVal.isNone : PyVal → Bool
  | .none => true
  | _ => false

/-- A failing result with a message (helper for the checkers below). -/
def failRes (spec : AssertionSpec) (msg : String) : AssertionResult :=
  { assertion := spec, passed := false, message := msg }

/-- `_check_exact`. -/
def checkExact (run : AgentRun) (spec : AssertionSpec) : Except String AssertionResult :=
  if spec.value.isNone then
    .ok (failRes spec "'exact' requires a non-null 'value'")
  else do
    let actual ← resolveTarget run spec.target
    let passed := pyEq actual spec.value
    pure { assertion := spec, passed := passed,
           message := if passed then "" else
             "Expected exact '" ++ pyStr spec.value ++ "', got '" ++ pyStr actual ++ "'" }

/-- `_check_contains`: `spec.value in str(actual)`; a non-string expected
value raises `TypeError` (caught by the dispatcher). -/
def checkContains (run : AgentRun) (spec : AssertionSpec) : Except String AssertionResult := do
  let actual ← resolveTarget run spec.target
  if actual.isNone || spec.value.isNone then
    pure (failRes spec ("Target '" ++ spec.target ++ "' resolved to None"))
  else
    match spec.value with
    | .str v =>
      let passed := strContainsSub (pyStr actual) v
      pure { assertion := spec, passed := passed,
             message := if passed then "" else "'" ++ v ++ "' not found in target" }
    | _ => .error "'in <string>' requires string as left operand"

/-- `_check_regex`: `re.search(spec.value, str(actual))`; a non-string
pattern raises `TypeError`, and the abstract matcher itself may raise
`re.error`. -/
def checkRegex (ext : PyExternal) (run : AgentRun) (spec : AssertionSpec) :
    Except String AssertionResult := do
  let actual ← resolveTarget run spec.target
  if actual.isNone || spec.value.isNone then
    pure (failRes spec "Target or pattern is None")
  else
    match spec.value with
    | .str pat => do
      let passed ← ext.reSearch pat (pyStr actual)
      pure { assertion := spec, passed := passed,
             message := if passed then "" else "Pattern '" ++ pat ++ "' not matched" }
    | _ => .error "first argument must be string or compiled pattern"

/-- `_check_json_schema`: a `ValidationError` is caught locally as a failing
result; any other exception escapes to the dispatcher. -/
def checkJsonSchema (ext : PyExternal) (run : AgentRun) (spec : AssertionSpec) :
    Except String AssertionResult := do
  let actual ← resolveTarget run spec.target
  if actual.isNone || spec.schema.isNone then
    pure (failRes spec "Target or schema is None")
  else
    match ext.jsValidate actual spec.schema with
    | .ok => pure { assertion := spec, passed := true }
    | .invalid m => pure (failRes spec ("Schema validation failed: " ++ m))
    | .err m => .error m

/-- The target-to-function-name normalization shared by `not_called`,
`called_with` and `called_count`: when the target starts with `"tool:"`,
*every* occurrence of `"tool:"` is removed (`str.replace`), otherwise the
target is used as-is. -/
def stripToolTarget (target : String) : String :=
  if pyStartsWith target "tool:" then pyReplace target "tool:" "" else target

/-- `_check_not_called`. -/
def checkNotCalled (run : AgentRun) (spec : AssertionSpec) : Except String AssertionResult :=
  let func_name := stripToolTarget spec.target
  let called := (allToolCalls run).any (fun c => c.1 = func_name)
  .ok { assertion := spec, passed := ¬ called,
        message := if ¬ called then "" else
          "Tool '" ++ func_name ++ "' was called but should not have been" }

/-- `args.get(k)` with a `PyVal` key: Python `==` lookup, `None` default. -/
def pyDictGet (kvs : List (PyVal × PyVal)) (k : PyVal) : PyVal :=
  match kvs.find? (fun kv => pyEq k kv.1) with
  | some kv => kv.2
  | _ => .none

/-- `_check_called_with`: some call to the named function whose dict
arguments satisfy `args.get(k) == v` for every expected item. -/
def checkCalledWith (run : AgentRun) (spec : AssertionSpec) : Except String AssertionResult :=
  let func_name := stripToolTarget spec.target
  if spec.schema.isNone then
    .ok (failRes spec "'called_with' requires expected arguments in 'schema'")
  else
    match spec.schema with
    | .dict expected_args =>
      let hit := (allToolCalls run).any (fun c =>
        c.1 == func_name &&
        match c.2.1 with
        | .dict kvs => expected_args.all (fun kv => pyEq (pyDictGet kvs kv.1) kv.2)
        | _ => false)
      if hit then .ok { assertion := spec, passed := true }
      else .ok (failRes spec ("Tool '" ++ func_name ++ "' was not called with expected arguments"))
    | _ => .ok (failRes spec "'called_with' expects a dict in 'schema'")

/-- `_check_called_count`. -/
def checkCalledCount (run : AgentRun) (spec : AssertionSpec) : Except String AssertionResult :=
  let func_name := stripToolTarget spec.target
  if spec.value.isNone then
    .ok (failRes spec "'called_count' requires an integer 'value'")
  else
    match pyInt? spec.value with
    | some expected_count =>
      let actual_count : Int := ((allToolCalls run).filter (fun c => c.1 = func_name)).length
      let passed := actual_count = expected_count
      .ok { assertion := spec, passed := passed,
            message := if passed then "" else
              "Tool '" ++ func_name ++ "' called " ++ intStr actual_count
                ++ " times, expected " ++ intStr expected_count }
    | _ => .ok (failRes spec "'called_count' expects an integer 'value'")

/-- The `checkers` dispatch table of `_check_assertion`: the checker looked
up for `spec.type`, `Option.none` for an unknown type. -/
def dispatchChecker (ext : PyExternal) (run : AgentRun) (spec : AssertionSpec) :
    Option (Except String AssertionResult) :=
  if spec.type = "exact" then some (checkExact run spec)
  else if spec.type = "contains" then some (checkContains run spec)
  else if spec.type = "regex" then some (checkRegex ext run spec)
  else if spec.type = "json_schema" then some (checkJsonSchema ext run spec)
  else if spec.type = "not_called" then some (checkNotCalled run spec)
  else if spec.type = "called_with" then some (checkCalledWith run spec)
  else if spec.type = "called_count" then some (checkCalledCount run spec)
  else Option.none

/-- `_check_assertion`: dispatch to the checker for `spec.type`; an unknown
type is a failing result, and any exception from a checker is caught as a
failing "Assertion error" result. -/
def checkAssertion (ext : PyExternal) (run : AgentRun) (spec : AssertionSpec) :
    AssertionResult :=
  match dispatchChecker ext run spec with
  | Option.none => failRes spec ("Unknown assertion type: " ++ spec.type)
  | some (.ok r) => r
  | some (.error e) => failRes spec ("Assertion error: " ++ e)

/-- `_policy_tool_allowlist`. -/
def policyToolAllowlist (run : AgentRun) (policy : PolicySpec) : AssertionResult :=
  let violations := (allToolCalls run).filterMap (fun c =>
    if c.1 ∉ policy.tools then some c.1 else Option.none)
  let spec : AssertionSpec := { type := "policy:" ++ policy.name, target := "all_tool_calls" }
  if violations ≠ [] then
    failRes spec ("Disallowed tools called: " ++ pyStr (.list (violations.map PyVal.str)))
  else { assertion := spec, passed := true }

/-- The first protected call in a turn violating `requires_confirmation`:
walks turns in order carrying the previous turn; within a turn only the first
protected call matters (the per-call check depends only on the turn's
position and the previous turn's role). -/
def firstConfViolation (tools : List String) :
    Nat → Option Turn → List Turn → Option (Nat × ToolCall)
  | _, _, [] => Option.none
  | i, prev, t :: rest =>
    match t.tool_calls.find? (fun tc => tc.function ∈ tools) with
    | some tc =>
      match prev with
      | Option.none => some (i, tc)
      | some p =>
        if p.role ≠ TurnRole.user then some (i, tc)
        else firstConfViolation tools (i + 1) (some t) rest
    | _ => firstConfViolation tools (i + 1) (some t) rest

/-- `_policy_requires_confirmation`. -/
def policyRequiresConfirmation (run : AgentRun) (policy : PolicySpec) : AssertionResult :=
  let spec : AssertionSpec := { type := "policy:" ++ policy.name, target := "tool_sequence" }
  match firstConfViolation policy.tools 0 Option.none run.turns with
  | some (i, tc) =>
    if i = 0 then
      failRes spec ("Tool '" ++ tc.function ++ "' called at turn 0 with no prior confirmation")
    else
      failRes spec ("Tool '" ++ tc.function ++ "' at turn " ++ intStr i
        ++ " not preceded by user confirmation")
  | _ => { assertion := spec, passed := true }

/-- `_check_policy`: dispatch on the policy type; the two known policies are
pure and cannot raise, so the source's catch-all around them is dead code. -/
def checkPolicy (run : AgentRun) (policy : PolicySpec) : AssertionResult :=
  if policy.type = "tool_allowlist" then policyToolAllowlist run policy
  else if policy.type = "requires_confirmation" then policyRequiresConfirmation run policy
  else failRes { type := "policy:" ++ policy.name } ("Unknown policy type: " ++ policy.type)

/-- `AssertionEngine.check`: one result per assertion, then one per policy. -/
def engineCheck (ext : PyExternal) (run : AgentRun)
    (assertions : List AssertionSpec) (policies : List PolicySpec) : ContractResult :=
  { scenario := run.metadata.scenario
    results := assertions.map (checkAssertion ext run) ++ policies.map (checkPolicy run) }

/-! ## Helper characterizations -/

/-- Flatten per-turn data in trajectory order. -/
def concatMapT {β : Type} (g : Turn → List β) : List Turn → List β
  | [] => []
  | t :: rest => g t ++ concatMapT g rest

theorem foldl_append_eq_concatMapT {β : Type} (g : Turn → List β) (ts : List Turn)
    (acc : List β) :
    ts.foldl (fun a t => a ++ g t) acc = acc ++ concatMapT g ts := by
  induction ts generalizing acc with
  | nil => simp [concatMapT]
  | cons t rest ih => simp [concatMapT, List.foldl_cons, ih]

theorem allToolCalls_eq (run : AgentRun) :
    allToolCalls run =
      concatMapT (fun t => t.tool_calls.map (fun tc => (tc.function, tc.arguments, tc.result)))
        run.turns := by
  have h := foldl_append_eq_concatMapT
    (fun t => t.tool_calls.map (fun tc => (tc.function, tc.arguments, tc.result))) run.turns []
  simpa [allToolCalls] using h

/-- The tool calls of a trajectory in recorded order (turn order, then
within-turn order). -/
def turnsCalls (ts : List Turn) : List ToolCall :=
  concatMapT (fun t => t.tool_calls) ts

theorem stub_inner_foldl (tcs : List ToolCall)
    (acc : String → List (PyVal × PyVal)) (f : String) :
    (tcs.foldl (fun acc tc =>
        updateFn acc tc.function (acc tc.function ++ [(tc.arguments, tc.result)])) acc) f
      = acc f ++ ((tcs.filter (fun tc => tc.function = f)).map
          (fun tc => (tc.arguments, tc.result))) := by
  induction tcs generalizing acc with
  | nil => simp
  | cons tc rest ih =>
    simp only [List.foldl_cons, ih, List.filter_cons]
    by_cases h : tc.function = f
    · simp [updateFn, h]
    · have h2 : ¬ (f = tc.function) := fun hh => h hh.symm
      simp [updateFn, h, h2]

theorem stub_queues_eq (run : AgentRun) (f : String) :
    (ToolStub.ofRun run).queues f
      = (((turnsCalls run.turns).filter (fun tc => tc.function = f)).map
          (fun tc => (tc.arguments, tc.result))) := by
  show (run.turns.foldl (fun acc turn =>
      turn.tool_calls.foldl (fun acc tc =>
        updateFn acc tc.function (acc tc.function ++ [(tc.arguments, tc.result)])) acc)
      (fun _ => [])) f = _
  suffices h : ∀ (ts : List Turn) (acc : String → List (PyVal × PyVal)),
      (ts.foldl (fun acc turn =>
        turn.tool_calls.foldl (fun acc tc =>
          updateFn acc tc.function (acc tc.function ++ [(tc.arguments, tc.result)])) acc) acc) f
        = acc f ++ (((turnsCalls ts).filter (fun tc => tc.function = f)).map
            (fun tc => (tc.arguments, tc.result))) by
    simpa using h run.turns (fun _ => [])
  intro ts
  induction ts with
  | nil => intro acc; simp [turnsCalls, concatMapT]
  | cons t rest ih =>
    intro acc
    simp only [List.foldl_cons, ih, stub_inner_foldl, turnsCalls, concatMapT,
      List.filter_append, List.map_append, List.append_assoc]

/-- C1: for a recorded run, the stub queues each function's calls in
trajectory order with the consumed count starting at 0; a call beyond the
queue fails with the distinct Exhausted condition carrying requested vs.
recorded counts; at a live head, an omitted or `==`-matching argument probe
pops the head and returns its recorded result, advancing only the
per-function count, while a mismatched probe fails with the distinct
ArgumentsMismatch condition and returns no advanced state, so the unchanged
stub still answers with the same head. -/
theorem stub_fifo_spec (run : AgentRun) (f : String) :
    ((ToolStub.ofRun run).queues f
        = ((turnsCalls run.turns).filter (fun tc => tc.function = f)).map
            (fun tc => (tc.arguments, tc.result)))
    ∧ ((ToolStub.ofRun run).call_counts f = 0)
    ∧ (∀ (s : ToolStub) (args : Option PyVal),
        (s.queues f).length ≤ s.call_counts f →
        ∃ m, s.get_result f args
            = .error (.exhausted m (s.call_counts f + 1) (s.queues f).length))
    ∧ (∀ (s : ToolStub) (h : s.call_counts f < (s.queues f).length),
        (s.get_result f Option.none
          = .ok (((s.queues f).get ⟨s.call_counts f, h⟩).2,
              { s with call_counts := updateFn s.call_counts f (s.call_counts f + 1) }))
        ∧ (∀ a : PyVal, pyEq a ((s.queues f).get ⟨s.call_counts f, h⟩).1 = true →
            s.get_result f (some a)
              = .ok (((s.queues f).get ⟨s.call_counts f, h⟩).2,
                  { s with call_counts := updateFn s.call_counts f (s.call_counts f + 1) }))
        ∧ (∀ a : PyVal, pyEq a ((s.queues f).get ⟨s.call_counts f, h⟩).1 = false →
            ∃ m, s.get_result f (some a) = .error (.argumentsMismatch m))) := by
  refine ⟨stub_queues_eq run f, rfl, ?_, ?_⟩
  · intro s args hle
    rw [ToolStub.get_result]
    simp [hle]
  · intro s h
    have hge : ¬ ((s.queues f).length ≤ s.call_counts f) := by omega
    refine ⟨?_, ?_, ?_⟩
    · rw [ToolStub.get_result]
      simp [hge]
    · intro a ha
      rw [ToolStub.get_result]
      simp [hge, List.get_eq_getElem] at ha ⊢
      simp [ha]
    · intro a ha
      rw [ToolStub.get_result]
      simp [hge, List.get_eq_getElem] at ha ⊢
      simp [ha]

/-- A two-call recorded run used by concrete witnesses. -/
def wRun : AgentRun :=
  { turns := [
      { index := 0
        role := .assistant
        tool_calls := [
          { id := "1", function := "f", arguments := .dict [(.str "x", .int 1)],
            result := .str "r1" },
          { id := "2", function := "f", arguments := .dict [(.str "x", .int 2)],
            result := .str "r2" } ] } ] }

theorem stub_fifo_spec_witness :
    ((ToolStub.ofRun wRun).call_counts "f" < ((ToolStub.ofRun wRun).queues "f").length)
    ∧ (∃ m, (ToolStub.ofRun wRun).get_result "f" (some (.dict [(.str "x", .int 2)]))
        = .error (.argumentsMismatch m)) := by
  have h : (ToolStub.ofRun wRun).call_counts "f" < ((ToolStub.ofRun wRun).queues "f").length := by
    decide
  refine ⟨h, ((stub_fifo_spec wRun "f").2.2.2 (ToolStub.ofRun wRun) h).2.2
    (.dict [(.str "x", .int 2)]) ?_⟩
  have hq : ((ToolStub.ofRun wRun).queues "f").get ⟨(ToolStub.ofRun wRun).call_counts "f", h⟩
      = (.dict [(.str "x", .int 1)], .str "r1") := rfl
  rw [hq]
  simp [pyEq, pyDictLe, pyDictMem, toNumQ]

/-- A pair of tool calls that `finish` counts as matched: same function and
`==`-equal arguments. -/
def tcPairMatch (p : ToolCall × ToolCall) : Bool :=
  p.1.function == p.2.function && pyEq p.1.arguments p.2.arguments

/-- Mismatched-tool contribution of a common position (actual, expected):
the absolute count difference when the counts differ, otherwise the number
of pairwise-differing calls. -/
def misAt (a e : Turn) : Nat :=
  if a.tool_calls.length = e.tool_calls.length then
    (a.tool_calls.zip e.tool_calls).countP (fun p => ! tcPairMatch p)
  else ((a.tool_calls.length : Int) - (e.tool_calls.length : Int)).natAbs

/-- Matched-tool contribution of a common position. -/
def matchedAt (a e : Turn) : Nat :=
  if a.tool_calls.length = e.tool_calls.length then
    (a.tool_calls.zip e.tool_calls).countP tcPairMatch
  else 0

/-- Extra-tool contribution of a common position: the surplus on the actual
side (truncated subtraction). -/
def extraAt (a e : Turn) : Nat := a.tool_calls.length - e.tool_calls.length

/-- Missing-tool contribution of a common position: the deficit on the
actual side. -/
def missAt (a e : Turn) : Nat := e.tool_calls.length - a.tool_calls.length

/-- Error-count contribution of a common position: one for a role mismatch,
plus one for a count mismatch or one per differing pair. -/
def errsAt (a e : Turn) : Nat :=
  (if a.role = e.role then 0 else 1) +
  (if a.tool_calls.length = e.tool_calls.length then
    (a.tool_calls.zip e.tool_calls).countP (fun p => ! tcPairMatch p)
  else 1)

theorem comparePairs_spec (i j : Nat) (as_ bs : List ToolCall) (res : ReplayResult) :
    (comparePairs i j as_ bs res).run = res.run
    ∧ (comparePairs i j as_ bs res).matched_tools
        = res.matched_tools + (as_.zip bs).countP tcPairMatch
    ∧ (comparePairs i j as_ bs res).mismatched_tools
        = res.mismatched_tools + (as_.zip bs).countP (fun p => ! tcPairMatch p)
    ∧ (comparePairs i j as_ bs res).missing_tools = res.missing_tools
    ∧ (comparePairs i j as_ bs res).extra_tools = res.extra_tools
    ∧ (comparePairs i j as_ bs res).errors.length
        = res.errors.length + (as_.zip bs).countP (fun p => ! tcPairMatch p) := by
  induction as_ generalizing bs j res with
  | nil => simp [comparePairs]
  | cons a rest ih =>
    cases bs with
    | nil => simp [comparePairs]
    | cons b bs' =>
      simp only [comparePairs, List.zip_cons_cons, List.countP_cons]
      by_cases hf : a.function = b.function
      · by_cases ha : pyEq a.arguments b.arguments
        · have hm : tcPairMatch (a, b) = true := by simp [tcPairMatch, hf, ha]
          have := ih (j + 1) bs' { res with matched_tools := res.matched_tools + 1 }
          simp only [hf, ha, ne_eq, not_true_eq_false, if_false, ite_false, ite_true,
            not_false_eq_true, if_true] at this ⊢
          simp only [hm]
          refine ⟨this.1, ?_, ?_, this.2.2.2.1, this.2.2.2.2.1, ?_⟩ <;>
            simp [this.2.1, this.2.2.1, this.2.2.2.2.2] <;> omega
        · have hm : tcPairMatch (a, b) = false := by simp [tcPairMatch, ha]
          have := ih (j + 1) bs'
            { res with mismatched_tools := res.mismatched_tools + 1
                       errors := res.errors ++ ["Turn " ++ intStr i ++ ", tool " ++ intStr j
                         ++ " (" ++ a.function ++ "): arguments differ"] }
          simp only [hf, ha, ne_eq, not_true_eq_false, if_false, ite_false, ite_true,
            not_false_eq_true, if_true] at this ⊢
          simp only [hm]
          refine ⟨this.1, ?_, ?_, this.2.2.2.1, this.2.2.2.2.1, ?_⟩ <;>
            simp [this.2.1, this.2.2.1, this.2.2.2.2.2] <;> omega
      · have hm : tcPairMatch (a, b) = false := by simp [tcPairMatch, hf]
        have := ih (j + 1) bs'
          { res with mismatched_tools := res.mismatched_tools + 1
                     errors := res.errors ++ ["Turn " ++ intStr i ++ ", tool " ++ intStr j
                       ++ ": expected function='" ++ b.function
                       ++ "', got function='" ++ a.function ++ "'"] }
        simp only [hf, ne_eq, not_false_eq_true, if_true] at this ⊢
        simp only [hm]
        refine ⟨this.1, ?_, ?_, this.2.2.2.1, this.2.2.2.2.1, ?_⟩ <;>
          simp [this.2.1, this.2.2.1, this.2.2.2.2.2] <;> omega

/-- Tool calls in actual turns beyond the recorded length (each such
position is an "extra turn"). -/
def extraTailCalls (ts rts : List Turn) : Nat :=
  ((ts.drop rts.length).map (fun t => t.tool_calls.length)).sum

theorem finishLoop_spec (ts : List Turn) : ∀ (rts : List Turn) (i : Nat) (res : ReplayResult),
    (finishLoop i ts rts res).run = res.run
    ∧ (finishLoop i ts rts res).matched_tools
        = res.matched_tools + ((ts.zip rts).map (fun p => matchedAt p.1 p.2)).sum
    ∧ (finishLoop i ts rts res).mismatched_tools
        = res.mismatched_tools + ((ts.zip rts).map (fun p => misAt p.1 p.2)).sum
          + extraTailCalls ts rts
    ∧ (finishLoop i ts rts res).missing_tools
        = res.missing_tools + ((ts.zip rts).map (fun p => missAt p.1 p.2)).sum
    ∧ (finishLoop i ts rts res).extra_tools
        = res.extra_tools + ((ts.zip rts).map (fun p => extraAt p.1 p.2)).sum
          + extraTailCalls ts rts
    ∧ (finishLoop i ts rts res).errors.length
        = res.errors.length + ((ts.zip rts).map (fun p => errsAt p.1 p.2)).sum
          + (ts.length - rts.length) := by
  induction ts with
  | nil =>
    intro rts i res
    simp [finishLoop, extraTailCalls]
  | cons a rest ih =>
    intro rts i res
    cases rts with
    | nil =>
      simp only [finishLoop]
      by_cases hc : a.tool_calls.length ≠ 0
      · simp only [if_pos hc]
        refine ⟨?_, ?_, ?_, ?_, ?_, ?_⟩
        · rw [(ih [] (i + 1) _).1]
        · rw [(ih [] (i + 1) _).2.1]; simp
        · rw [(ih [] (i + 1) _).2.2.1]
          simp [extraTailCalls]
          omega
        · rw [(ih [] (i + 1) _).2.2.2.1]; simp
        · rw [(ih [] (i + 1) _).2.2.2.2.1]
          simp [extraTailCalls]
          omega
        · rw [(ih [] (i + 1) _).2.2.2.2.2]
          simp
          omega
      · simp only [if_neg hc]
        push_neg at hc
        refine ⟨?_, ?_, ?_, ?_, ?_, ?_⟩
        · rw [(ih [] (i + 1) _).1]
        · rw [(ih [] (i + 1) _).2.1]; simp
        · rw [(ih [] (i + 1) _).2.2.1]
          simp [extraTailCalls, hc]
        · rw [(ih [] (i + 1) _).2.2.2.1]; simp
        · rw [(ih [] (i + 1) _).2.2.2.2.1]
          simp [extraTailCalls, hc]
        · rw [(ih [] (i + 1) _).2.2.2.2.2]
          simp
          omega
    | cons e rrest =>
      simp only [finishLoop, List.zip_cons_cons, List.map_cons, List.sum_cons]
      have hTail : extraTailCalls (a :: rest) (e :: rrest) = extraTailCalls rest rrest := by
        simp [extraTailCalls]
      by_cases hrole : a.role = e.role
      · simp only [hrole, ne_eq, not_true_eq_false, if_false, ite_false, ite_true]
        by_cases hlen : a.tool_calls.length = e.tool_calls.length
        · simp only [hlen, ne_eq, not_true_eq_false, if_false, ite_false, ite_true]
          refine ⟨?_, ?_, ?_, ?_, ?_, ?_⟩
          · rw [(ih rrest (i + 1) _).1, (comparePairs_spec i 0 _ _ _).1]
          · rw [(ih rrest (i + 1) _).2.1, (comparePairs_spec i 0 _ _ _).2.1]
            simp [matchedAt, hlen]
            omega
          · rw [(ih rrest (i + 1) _).2.2.1, (comparePairs_spec i 0 _ _ _).2.2.1]
            simp [misAt, hlen, hTail]
            omega
          · rw [(ih rrest (i + 1) _).2.2.2.1, (comparePairs_spec i 0 _ _ _).2.2.2.1]
            simp [missAt, hlen]
          · rw [(ih rrest (i + 1) _).2.2.2.2.1, (comparePairs_spec i 0 _ _ _).2.2.2.2.1]
            simp [extraAt, hlen, hTail]
          · rw [(ih rrest (i + 1) _).2.2.2.2.2, (comparePairs_spec i 0 _ _ _).2.2.2.2.2]
            simp [errsAt, hrole, hlen, hTail]
            omega
        · simp only [hlen, ne_eq, not_false_eq_true, if_true, ite_true, ite_false]
          by_cases hgt : a.tool_calls.length > e.tool_calls.length
          · simp only [if_pos hgt]
            refine ⟨?_, ?_, ?_, ?_, ?_, ?_⟩
            · rw [(ih rrest (i + 1) _).1]
            · rw [(ih rrest (i + 1) _).2.1]
              simp [matchedAt, hlen]
            · rw [(ih rrest (i + 1) _).2.2.1]
              simp [misAt, hlen, hTail]
              omega
            · rw [(ih rrest (i + 1) _).2.2.2.1]
              simp [missAt]
              omega
            · rw [(ih rrest (i + 1) _).2.2.2.2.1]
              simp [extraAt, hTail]
              omega
            · rw [(ih rrest (i + 1) _).2.2.2.2.2]
              simp [errsAt, hrole, hlen]
              omega
          · simp only [if_neg hgt]
            refine ⟨?_, ?_, ?_, ?_, ?_, ?_⟩
            · rw [(ih rrest (i + 1) _).1]
            · rw [(ih rrest (i + 1) _).2.1]
              simp [matchedAt, hlen]
            · rw [(ih rrest (i + 1) _).2.2.1]
              simp [misAt, hlen, hTail]
              omega
            · rw [(ih rrest (i + 1) _).2.2.2.1]
              simp [missAt]
              omega
            · rw [(ih rrest (i + 1) _).2.2.2.2.1]
              simp [extraAt, hTail]
              omega
            · rw [(ih rrest (i + 1) _).2.2.2.2.2]
              simp [errsAt, hrole, hlen]
              omega
      · simp only [hrole, ne_eq, not_false_eq_true, if_true, ite_true, ite_false]
        by_cases hlen : a.tool_calls.length = e.tool_calls.length
        · simp only [hlen, ne_eq, not_true_eq_false, if_false, ite_false, ite_true]
          refine ⟨?_, ?_, ?_, ?_, ?_, ?_⟩
          · rw [(ih rrest (i + 1) _).1, (comparePairs_spec i 0 _ _ _).1]
          · rw [(ih rrest (i + 1) _).2.1, (comparePairs_spec i 0 _ _ _).2.1]
            simp [matchedAt, hlen]
            omega
          · rw [(ih rrest (i + 1) _).2.2.1, (comparePairs_spec i 0 _ _ _).2.2.1]
            simp [misAt, hlen, hTail]
            omega
          · rw [(ih rrest (i + 1) _).2.2.2.1, (comparePairs_spec i 0 _ _ _).2.2.2.1]
            simp [missAt, hlen]
          · rw [(ih rrest (i + 1) _).2.2.2.2.1, (comparePairs_spec i 0 _ _ _).2.2.2.2.1]
            simp [extraAt, hlen, hTail]
          · rw [(ih rrest (i + 1) _).2.2.2.2.2, (comparePairs_spec i 0 _ _ _).2.2.2.2.2]
            simp [errsAt, hrole, hlen, hTail]
            omega
        · simp only [hlen, ne_eq, not_false_eq_true, if_true, ite_true, ite_false]
          by_cases hgt : a.tool_calls.length > e.tool_calls.length
          · simp only [if_pos hgt]
            refine ⟨?_, ?_, ?_, ?_, ?_, ?_⟩
            · rw [(ih rrest (i + 1) _).1]
            · rw [(ih rrest (i + 1) _).2.1]
              simp [matchedAt, hlen]
            · rw [(ih rrest (i + 1) _).2.2.1]
              simp [misAt, hlen, hTail]
              omega
            · rw [(ih rrest (i + 1) _).2.2.2.1]
              simp [missAt]
              omega
            · rw [(ih rrest (i + 1) _).2.2.2.2.1]
              simp [extraAt, hTail]
              omega
            · rw [(ih rrest (i + 1) _).2.2.2.2.2]
              simp [errsAt, hrole, hlen]
              omega
          · simp only [if_neg hgt]
            refine ⟨?_, ?_, ?_, ?_, ?_, ?_⟩
            · rw [(ih rrest (i + 1) _).1]
            · rw [(ih rrest (i + 1) _).2.1]
              simp [matchedAt, hlen]
            · rw [(ih rrest (i + 1) _).2.2.1]
              simp [misAt, hlen, hTail]
              omega
            · rw [(ih rrest (i + 1) _).2.2.2.1]
              simp [missAt]
              omega
            · rw [(ih rrest (i + 1) _).2.2.2.2.1]
              simp [extraAt, hTail]
              omega
            · rw [(ih rrest (i + 1) _).2.2.2.2.2]
              simp [errsAt, hrole, hlen]
              omega

theorem natMemLeSum {a : Nat} : ∀ {l : List Nat}, a ∈ l → a ≤ l.sum := by
  intro l h
  induction l with
  | nil => cases h
  | cons x xs ih =>
    rcases List.mem_cons.mp h with h1 | h2
    · simp [h1]
    · have := ih h2
      simp
      omega

/-- Tool calls in recorded turns beyond the actual length, counted only when
the actual trajectory is shorter. -/
def missTailCalls (recorded : AgentRun) (actual : List Turn) : Nat :=
  if actual.length < recorded.turns.length then
    ((recorded.turns.drop actual.length).map (fun t => t.tool_calls.length)).sum
  else 0

/-- C4: `finish` succeeds iff there are no errors and no mismatched tools;
its counters decompose position-by-position — at every position present in
both sequences the surplus goes to extra, the deficit to missing, the
absolute count difference (or the pairwise mismatch count) to mismatched,
with one error per discrepancy — plus the extra/missing turn tails; hence
any tool-call count discrepancy at a common position already fails `ok`. -/
theorem replay_finish_spec (recorded : AgentRun) (actual : List Turn) :
    ((finish recorded actual).ok = true
      ↔ ((finish recorded actual).errors = [] ∧ (finish recorded actual).mismatched_tools = 0))
    ∧ (finish recorded actual).extra_tools
        = ((actual.zip recorded.turns).map (fun p => extraAt p.1 p.2)).sum
          + extraTailCalls actual recorded.turns
    ∧ (finish recorded actual).missing_tools
        = ((actual.zip recorded.turns).map (fun p => missAt p.1 p.2)).sum
          + missTailCalls recorded actual
    ∧ (finish recorded actual).mismatched_tools
        = ((actual.zip recorded.turns).map (fun p => misAt p.1 p.2)).sum
          + extraTailCalls actual recorded.turns + missTailCalls recorded actual
    ∧ (finish recorded actual).errors.length
        = ((actual.zip recorded.turns).map (fun p => errsAt p.1 p.2)).sum
          + (actual.length - recorded.turns.length)
          + (if actual.length < recorded.turns.length then 1 else 0)
    ∧ (∀ (i : Nat) (hi : i < actual.length) (hr : i < recorded.turns.length),
        (actual.get ⟨i, hi⟩).tool_calls.length
            ≠ ((recorded.turns).get ⟨i, hr⟩).tool_calls.length →
        (finish recorded actual).ok = false) := by
  have hL := finishLoop_spec actual recorded.turns 0 { run := recorded }
  have hOk : ∀ r : ReplayResult, (r.ok = true ↔ (r.errors = [] ∧ r.mismatched_tools = 0)) := by
    intro r
    simp [ReplayResult.ok, List.length_eq_zero]
  have hMain :
      (finish recorded actual).extra_tools
        = ((actual.zip recorded.turns).map (fun p => extraAt p.1 p.2)).sum
          + extraTailCalls actual recorded.turns
      ∧ (finish recorded actual).missing_tools
        = ((actual.zip recorded.turns).map (fun p => missAt p.1 p.2)).sum
          + missTailCalls recorded actual
      ∧ (finish recorded actual).mismatched_tools
        = ((actual.zip recorded.turns).map (fun p => misAt p.1 p.2)).sum
          + extraTailCalls actual recorded.turns + missTailCalls recorded actual
      ∧ (finish recorded actual).errors.length
        = ((actual.zip recorded.turns).map (fun p => errsAt p.1 p.2)).sum
          + (actual.length - recorded.turns.length)
          + (if actual.length < recorded.turns.length then 1 else 0) := by
    by_cases hshort : actual.length < recorded.turns.length
    · simp only [finish, if_pos hshort]
      by_cases hmc : ((recorded.turns.drop actual.length).map
          (fun t => t.tool_calls.length)).sum ≠ 0
      · simp only [if_pos hmc]
        simp only [ne_eq] at hmc
        simp at hmc
        refine ⟨?_, ?_, ?_, ?_⟩ <;>
          simp [hL.2.2.2.2.1, hL.2.2.2.1, hL.2.2.1, hL.2.2.2.2.2, hshort,
            missTailCalls, extraTailCalls] <;> omega
      · simp only [if_neg hmc]
        push_neg at hmc
        simp at hmc
        refine ⟨?_, ?_, ?_, ?_⟩ <;>
          simp [hL.2.2.2.2.1, hL.2.2.2.1, hL.2.2.1, hL.2.2.2.2.2, hshort, hmc,
            missTailCalls, extraTailCalls] <;> omega
    · simp only [finish, if_neg hshort]
      refine ⟨?_, ?_, ?_, ?_⟩ <;>
        simp [hL.2.2.2.2.1, hL.2.2.2.1, hL.2.2.1, hL.2.2.2.2.2, hshort,
          missTailCalls, extraTailCalls] <;> omega
  refine ⟨hOk _, hMain.1, hMain.2.1, hMain.2.2.1, hMain.2.2.2, ?_⟩
  intro i hi hr hne
  have hzip : i < (actual.zip recorded.turns).length := by
    simp [List.length_zip]
    omega
  have hget : (actual.zip recorded.turns).get ⟨i, hzip⟩
      = (actual.get ⟨i, hi⟩, (recorded.turns).get ⟨i, hr⟩) := by
    simp [List.get_eq_getElem, List.getElem_zip]
  have hmem : misAt (actual.get ⟨i, hi⟩) ((recorded.turns).get ⟨i, hr⟩)
      ∈ (actual.zip recorded.turns).map (fun p => misAt p.1 p.2) := by
    have : (actual.get ⟨i, hi⟩, (recorded.turns).get ⟨i, hr⟩) ∈ actual.zip recorded.turns := by
      rw [← hget]
      exact List.get_mem _ _ _
    exact List.mem_map_of_mem _ this
  have hpos : 0 < misAt (actual.get ⟨i, hi⟩) ((recorded.turns).get ⟨i, hr⟩) := by
    rw [misAt, if_neg hne]
    have h0 : (((actual.get ⟨i, hi⟩).tool_calls.length : Int)
        - (((recorded.turns).get ⟨i, hr⟩).tool_calls.length : Int)) ≠ 0 := by
      intro hc
      apply hne
      omega
    exact Int.natAbs_pos.mpr h0
  have hle := natMemLeSum hmem
  have : (finish recorded actual).mismatched_tools ≠ 0 := by
    have h2 := hMain.2.2.1
    omega
  simp [ReplayResult.ok, this]

def wTurnEmpty : Turn := { index := 0, role := .assistant }

theorem replay_finish_spec_witness :
    (([wTurnEmpty].get ⟨0, by decide⟩).tool_calls.length
        ≠ ((wRun.turns).get ⟨0, by decide⟩).tool_calls.length)
    ∧ (finish wRun [wTurnEmpty]).ok = false := by
  refine ⟨by decide, (replay_finish_spec wRun [wTurnEmpty]).2.2.2.2.2 0 (by decide) (by decide)
    (by decide)⟩

/-- The turn preceding position `k` as the confirmation policy sees it:
the carried `prev` at the suffix head, otherwise the turn at `k - 1`. -/
def prevOpt (prev : Option Turn) (ts : List Turn) (k : Nat) : Option Turn :=
  if k = 0 then prev else ts.get? (k - 1)

theorem prevOpt_cons (prev : Option Turn) (t : Turn) (rest : List Turn) (k : Nat) :
    prevOpt prev (t :: rest) (k + 1) = prevOpt (some t) rest k := by
  cases k with
  | zero => simp [prevOpt]
  | succ k => simp [prevOpt]

/-- The confirmation check a position must satisfy: some preceding turn
exists and has user role. -/
def confOk (prev : Option Turn) (ts : List Turn) (k : Nat) : Prop :=
  ∃ p, prevOpt prev ts k = some p ∧ p.role = TurnRole.user

theorem confOk_cons (prev : Option Turn) (t : Turn) (rest : List Turn) (k : Nat) :
    confOk prev (t :: rest) (k + 1) ↔ confOk (some t) rest k := by
  simp [confOk, prevOpt_cons]

theorem firstConfViolation_none_iff (tools : List String) :
    ∀ (ts : List Turn) (i0 : Nat) (prev : Option Turn),
    (firstConfViolation tools i0 prev ts = Option.none ↔
      (∀ (k : Nat) (t : Turn), ts.get? k = some t →
        (∃ tc ∈ t.tool_calls, tc.function ∈ tools) → confOk prev ts k)) := by
  intro ts
  induction ts with
  | nil =>
    intro i0 prev
    simp [firstConfViolation]
  | cons t rest ih =>
    intro i0 prev
    rw [firstConfViolation]
    rcases hfind : t.tool_calls.find? (fun tc => tc.function ∈ tools) with _ | tc
    · -- no protected call in this turn
      simp only [hfind]
      have hnp : ¬ (∃ tc ∈ t.tool_calls, tc.function ∈ tools) := by
        rintro ⟨tc, hmem, hin⟩
        have := List.find?_eq_none.mp hfind tc hmem
        simp [hin] at this
      rw [ih (i0 + 1) (some t)]
      constructor
      · intro H k u hk hp
        cases k with
        | zero =>
          simp at hk
          exact absurd (hk ▸ hp) hnp
        | succ k =>
          rw [confOk_cons]
          exact H k u (by simpa using hk) hp
      · intro H k u hk hp
        rw [← confOk_cons prev t rest k]
        exact H (k + 1) u (by simpa using hk) hp
    · -- the turn has a protected call
      simp only [hfind]
      have hprot : ∃ tc2 ∈ t.tool_calls, tc2.function ∈ tools := by
        refine ⟨tc, List.mem_of_find?_eq_some hfind, ?_⟩
        have := List.find?_some hfind
        simpa using this
      cases prev with
      | none =>
        simp only []
        constructor
        · intro h
          cases h
        · intro H
          have := H 0 t (by simp) hprot
          rcases this with ⟨p, hp, _⟩
          simp [prevOpt] at hp
      | some p =>
        by_cases hrole : p.role = TurnRole.user
        · simp only [hrole]
          simp only [ne_eq, not_true_eq_false, if_false, ite_false, ite_true]
          rw [ih (i0 + 1) (some t)]
          constructor
          · intro H k u hk hp
            cases k with
            | zero =>
              exact ⟨p, by simp [prevOpt], hrole⟩
            | succ k =>
              rw [confOk_cons]
              exact H k u (by simpa using hk) hp
          · intro H k u hk hp
            rw [← confOk_cons (some p) t rest k]
            exact H (k + 1) u (by simpa using hk) hp
        · simp only [ne_eq, hrole, not_false_eq_true, if_true, ite_true]
          constructor
          · intro h
            cases h
          · intro H
            have := H 0 t (by simp) hprot
            rcases this with ⟨q, hq, hqr⟩
            simp [prevOpt] at hq
            exact absurd (hq ▸ hqr) hrole

theorem firstConfViolation_some_iff (tools : List String) :
    ∀ (ts : List Turn) (i0 : Nat) (prev : Option Turn) (i : Nat) (tc : ToolCall),
    (firstConfViolation tools i0 prev ts = some (i, tc) ↔
      ∃ (k : Nat) (t : Turn), i = i0 + k ∧ ts.get? k = some t
        ∧ t.tool_calls.find? (fun c => c.function ∈ tools) = some tc
        ∧ ¬ confOk prev ts k
        ∧ (∀ (j : Nat) (t2 : Turn), j < k → ts.get? j = some t2 →
            (∃ tc2 ∈ t2.tool_calls, tc2.function ∈ tools) → confOk prev ts j)) := by
  intro ts
  induction ts with
  | nil =>
    intro i0 prev i tc
    simp [firstConfViolation]
  | cons t rest ih =>
    intro i0 prev i tc
    rw [firstConfViolation]
    rcases hfind : t.tool_calls.find? (fun c => c.function ∈ tools) with _ | tc0
    · -- no protected call in this turn
      simp only [hfind]
      have hnp : ¬ (∃ tc2 ∈ t.tool_calls, tc2.function ∈ tools) := by
        rintro ⟨tc2, hmem, hin⟩
        have := List.find?_eq_none.mp hfind tc2 hmem
        simp [hin] at this
      rw [ih (i0 + 1) (some t)]
      constructor
      · rintro ⟨k, u, hi, hk, hf, hnc, hall⟩
        refine ⟨k + 1, u, by omega, by simpa using hk, hf, ?_, ?_⟩
        · rw [confOk_cons]; exact hnc
        · intro j t2 hj hjk hp
          cases j with
          | zero =>
            simp at hjk
            exact absurd (hjk ▸ hp) hnp
          | succ j =>
            rw [confOk_cons]
            exact hall j t2 (by omega) (by simpa using hjk) hp
      · rintro ⟨k, u, hi, hk, hf, hnc, hall⟩
        cases k with
        | zero =>
          simp at hk
          rw [hk] at hfind
          rw [hfind] at hf
          cases hf
        | succ k =>
          refine ⟨k, u, by omega, by simpa using hk, hf, ?_, ?_⟩
          · rw [← confOk_cons prev t rest k]; exact hnc
          · intro j t2 hj hjk hp
            rw [← confOk_cons prev t rest j]
            exact hall (j + 1) t2 (by omega) (by simpa using hjk) hp
    · -- this turn has a protected call tc0
      simp only [hfind]
      have hprot : ∃ tc2 ∈ t.tool_calls, tc2.function ∈ tools := by
        refine ⟨tc0, List.mem_of_find?_eq_some hfind, ?_⟩
        have := List.find?_some hfind
        simpa using this
      have hstep : ∀ (hnc0 : ¬ confOk prev (t :: rest) 0),
          (some (i0, tc0) = some (i, tc) ↔
            ∃ (k : Nat) (u : Turn), i = i0 + k ∧ (t :: rest).get? k = some u
              ∧ u.tool_calls.find? (fun c => c.function ∈ tools) = some tc
              ∧ ¬ confOk prev (t :: rest) k
              ∧ (∀ (j : Nat) (t2 : Turn), j < k → (t :: rest).get? j = some t2 →
                  (∃ tc2 ∈ t2.tool_calls, tc2.function ∈ tools) → confOk prev (t :: rest) j)) := by
        intro hnc0
        constructor
        · intro h
          obtain ⟨hi, htc⟩ : i0 = i ∧ tc0 = tc := by simpa using h
          refine ⟨0, t, by omega, by simp, ?_, hnc0, by omega⟩
          rw [hfind, htc]
        · rintro ⟨k, u, hi, hk, hf, hnc, hall⟩
          cases k with
          | zero =>
            simp at hk
            rw [← hk] at hf
            rw [hfind] at hf
            have htc : tc0 = tc := by simpa using hf
            simp [hi, htc]
          | succ k =>
            exact absurd (hall 0 t (by omega) (by simp) hprot) hnc0
      cases prev with
      | none =>
        simp only []
        exact hstep (by simp [confOk, prevOpt])
      | some p =>
        by_cases hrole : p.role = TurnRole.user
        · simp only [hrole]
          simp only [ne_eq, not_true_eq_false, if_false, ite_false, ite_true]
          rw [ih (i0 + 1) (some t)]
          have hok0 : confOk (some p) (t :: rest) 0 := ⟨p, by simp [prevOpt], hrole⟩
          constructor
          · rintro ⟨k, u, hi, hk, hf, hnc, hall⟩
            refine ⟨k + 1, u, by omega, by simpa using hk, hf, ?_, ?_⟩
            · rw [confOk_cons]; exact hnc
            · intro j t2 hj hjk hp
              cases j with
              | zero => exact hok0
              | succ j =>
                rw [confOk_cons]
                exact hall j t2 (by omega) (by simpa using hjk) hp
          · rintro ⟨k, u, hi, hk, hf, hnc, hall⟩
            cases k with
            | zero => exact absurd hok0 hnc
            | succ k =>
              refine ⟨k, u, by omega, by simpa using hk, hf, ?_, ?_⟩
              · rw [← confOk_cons (some p) t rest k]; exact hnc
              · intro j t2 hj hjk hp
                rw [← confOk_cons (some p) t rest j]
                exact hall (j + 1) t2 (by omega) (by simpa using hjk) hp
        · simp only [ne_eq, hrole, not_false_eq_true, if_true, ite_true]
          exact hstep (by
            rintro ⟨q, hq, hqr⟩
            simp [prevOpt] at hq
            exact hrole (hq ▸ hqr))

theorem confOk_none_iff (ts : List Turn) (k : Nat) :
    confOk Option.none ts k ↔
      (k ≠ 0 ∧ ∃ p, ts.get? (k - 1) = some p ∧ p.role = TurnRole.user) := by
  cases k with
  | zero => simp [confOk, prevOpt]
  | succ k => simp [confOk, prevOpt]

/-- C6: the `requires_confirmation` policy passes iff every recorded call to
a protected function sits in a turn that is not at position 0 and whose
immediately preceding turn has user role; when it fails, the reported
violation is the first protected call (in traversal order) of the earliest
violating turn. -/
theorem policy_requires_confirmation_spec (run : AgentRun) (policy : PolicySpec) :
    ((policyRequiresConfirmation run policy).passed = true ↔
      (∀ (k : Nat) (t : Turn), run.turns.get? k = some t →
        ∀ tc ∈ t.tool_calls, tc.function ∈ policy.tools →
          k ≠ 0 ∧ ∃ p, run.turns.get? (k - 1) = some p ∧ p.role = TurnRole.user))
    ∧ (∀ (i : Nat) (tc : ToolCall),
        firstConfViolation policy.tools 0 Option.none run.turns = some (i, tc) →
        ((policyRequiresConfirmation run policy).passed = false
         ∧ ∃ t, run.turns.get? i = some t
            ∧ t.tool_calls.find? (fun c => c.function ∈ policy.tools) = some tc
            ∧ ¬ (i ≠ 0 ∧ ∃ p, run.turns.get? (i - 1) = some p ∧ p.role = TurnRole.user)
            ∧ (∀ (j : Nat) (t2 : Turn), j < i → run.turns.get? j = some t2 →
                (∃ tc2 ∈ t2.tool_calls, tc2.function ∈ policy.tools) →
                j ≠ 0 ∧ ∃ p, run.turns.get? (j - 1) = some p ∧ p.role = TurnRole.user))) := by
  have hpassed : (policyRequiresConfirmation run policy).passed = true ↔
      firstConfViolation policy.tools 0 Option.none run.turns = Option.none := by
    rw [policyRequiresConfirmation]
    rcases h : firstConfViolation policy.tools 0 Option.none run.turns with _ | v
    · simp
    · rcases v with ⟨i, tc⟩
      by_cases hi : i = 0 <;> simp [hi, failRes]
  constructor
  · rw [hpassed, firstConfViolation_none_iff]
    constructor
    · intro H k t hk tc hmem hin
      rw [← confOk_none_iff]
      exact H k t hk ⟨tc, hmem, hin⟩
    · intro H k t hk hp
      rcases hp with ⟨tc, hmem, hin⟩
      rw [show confOk Option.none run.turns k
          = confOk Option.none run.turns k from rfl, confOk_none_iff]
      exact H k t hk tc hmem hin
  · intro i tc hfv
    have hfail : (policyRequiresConfirmation run policy).passed = false := by
      rcases hb : (policyRequiresConfirmation run policy).passed with _ | _
      · rfl
      · rw [hpassed] at hb
        rw [hb] at hfv
        cases hfv
    refine ⟨hfail, ?_⟩
    rcases (firstConfViolation_some_iff policy.tools run.turns 0 Option.none i tc).mp hfv
      with ⟨k, t, hi, hk, hf, hnc, hall⟩
    have hik : i = k := by omega
    subst hik
    refine ⟨t, hk, hf, ?_, ?_⟩
    · rw [← confOk_none_iff]
      exact hnc
    · intro j t2 hj hjk hp
      rw [← confOk_none_iff]
      exact hall j t2 hj hjk hp

theorem policy_requires_confirmation_spec_witness :
    (firstConfViolation ["f"] 0 Option.none wRun.turns
      = some (0, { id := "1", function := "f", arguments := .dict [(.str "x", .int 1)],
                   result := .str "r1" }))
    ∧ (policyRequiresConfirmation wRun
        { name := "conf", type := "requires_confirmation", tools := ["f"] }).passed = false := by
  have h : firstConfViolation ["f"] 0 Option.none wRun.turns
      = some (0, { id := "1", function := "f", arguments := .dict [(.str "x", .int 1)],
                   result := .str "r1" }) := rfl
  exact ⟨h, ((policy_requires_confirmation_spec wRun
    { name := "conf", type := "requires_confirmation", tools := ["f"] }).2 _ _ h).1⟩

theorem argsMatchB_iff (v : PyVal) (expected : List (PyVal × PyVal)) :
    ((match v with
      | PyVal.dict kvs => expected.all (fun kv => pyEq (pyDictGet kvs kv.1) kv.2)
      | _ => false) = true)
    ↔ ∃ akvs, v = PyVal.dict akvs
        ∧ ∀ kv ∈ expected, pyEq (pyDictGet akvs kv.1) kv.2 = true := by
  cases v <;> simp [List.all_eq_true]

/-- C7 (amended): `called_with` never raises; it fails on a null or non-dict
expected mapping; with the target normalized by the code's `str.replace`
(every `"tool:"` occurrence removed when the target starts with `"tool:"`),
it passes iff some recorded call to that name has a dict arguments value in
which, for every expected key, the looked-up value — `None` when the key is
absent — is `==`-equal to the expected value; non-dict recorded arguments
never match. -/
theorem check_called_with_spec (run : AgentRun) (spec : AssertionSpec) :
    (spec.schema.isNone = true →
      checkCalledWith run spec
        = .ok (failRes spec "'called_with' requires expected arguments in 'schema'"))
    ∧ (∀ expected, spec.schema = PyVal.dict expected →
        ∃ res, checkCalledWith run spec = .ok res
          ∧ (res.passed = true ↔
              ∃ c ∈ allToolCalls run, c.1 = stripToolTarget spec.target
                ∧ ∃ akvs, c.2.1 = PyVal.dict akvs
                    ∧ ∀ kv ∈ expected, pyEq (pyDictGet akvs kv.1) kv.2 = true))
    ∧ (spec.schema.isNone = false → (∀ expected, spec.schema ≠ PyVal.dict expected) →
        checkCalledWith run spec
          = .ok (failRes spec "'called_with' expects a dict in 'schema'")) := by
  refine ⟨?_, ?_, ?_⟩
  · intro hnone
    rw [checkCalledWith, if_pos hnone]
  · intro expected hdict
    have hnone : spec.schema.isNone = false := by
      rw [hdict]
      rfl
    rw [checkCalledWith, if_neg (by simp [hnone]), hdict]
    dsimp only
    by_cases hhit : (allToolCalls run).any (fun c =>
        c.1 == stripToolTarget spec.target &&
        match c.2.1 with
        | PyVal.dict kvs => expected.all (fun kv => pyEq (pyDictGet kvs kv.1) kv.2)
        | _ => false) = true
    · refine ⟨_, by rw [if_pos hhit], ?_⟩
      simp only [List.any_eq_true, Bool.and_eq_true, beq_iff_eq] at hhit
      constructor
      · intro _
        rcases hhit with ⟨c, hc, hname, hmatch⟩
        exact ⟨c, hc, hname, (argsMatchB_iff _ _).mp hmatch⟩
      · intro _
        rfl
    · refine ⟨_, by rw [if_neg hhit], ?_⟩
      simp only [failRes]
      constructor
      · intro hfalse
        cases hfalse
      · intro hex
        exfalso
        apply hhit
        simp only [List.any_eq_true, Bool.and_eq_true, beq_iff_eq]
        rcases hex with ⟨c, hc, hname, hm⟩
        exact ⟨c, hc, hname, (argsMatchB_iff _ _).mpr hm⟩
  · intro hnone hnotdict
    rw [checkCalledWith, if_neg (by simp [hnone])]
    rcases hs : spec.schema with _ | _ | _ | _ | _ | _ | kvs | _ | _ | _ | _ <;>
      first
        | rfl
        | (exact absurd rfl (hs ▸ hnotdict kvs))
        | (rw [hs] at hnone; cases hnone)

/-- Run with one call to `g` whose arguments mapping is empty. -/
def cwRun : AgentRun :=
  { turns := [{ index := 0, role := .assistant, tool_calls := [
      { id := "1", function := "g", arguments := .dict [], result := .none } ] }] }

/-- `called_with` spec expecting key `"a"` with value `None`. -/
def cwSpec : AssertionSpec :=
  { type := "called_with", target := "g", schema := .dict [(.str "a", .none)] }

/-- Run with one call to `tool:g` whose arguments match `cwSpec2`. -/
def cwRun2 : AgentRun :=
  { turns := [{ index := 0, role := .assistant, tool_calls := [
      { id := "1", function := "tool:g", arguments := .dict [(.str "a", .int 1)],
        result := .none } ] }] }

/-- `called_with` spec whose target repeats the `tool:` marker. -/
def cwSpec2 : AssertionSpec :=
  { type := "called_with", target := "tool:tool:g", schema := .dict [(.str "a", .int 1)] }

/-- C7 counterexample: (1) the check passes although no recorded arguments
mapping contains the expected key `"a"` (Python's `args.get` yields `None`
for the absent key, which `==` the expected `None`), contradicting "every
expected key present"; (2) with target `"tool:tool:g"` the check fails even
though a call to `"tool:g"` (the prefix-stripped name) matches with the key
present, because the code removes *every* `"tool:"` occurrence. -/
theorem check_called_with_claim_counterexample :
    (∃ res, checkCalledWith cwRun cwSpec = .ok res ∧ res.passed = true)
    ∧ allToolCalls cwRun = [("g", PyVal.dict [], PyVal.none)]
    ∧ (∃ res, checkCalledWith cwRun2 cwSpec2 = .ok res ∧ res.passed = false)
    ∧ allToolCalls cwRun2 = [("tool:g", PyVal.dict [(.str "a", .int 1)], PyVal.none)] := by
  have hstrip1 : stripToolTarget "g" = "g" := by
    rw [stripToolTarget]
    norm_num [pyStartsWith, startsWithChars]
  have hstrip2 : stripToolTarget "tool:tool:g" = "g" := by decide
  refine ⟨?_, rfl, ?_, rfl⟩
  · rw [checkCalledWith]
    simp only [cwSpec, cwRun, PyVal.isNone, allToolCalls, List.foldl_cons, List.foldl_nil,
      hstrip1]
    simp [pyDictGet, pyEq, failRes]
  · rw [checkCalledWith]
    simp only [cwSpec2, cwRun2, PyVal.isNone, allToolCalls, List.foldl_cons, List.foldl_nil,
      hstrip2]
    simp [pyDictGet, pyEq, failRes]

theorem check_called_with_spec_witness :
    cwSpec.schema = PyVal.dict [(.str "a", .none)]
    ∧ ∃ res, checkCalledWith cwRun cwSpec = .ok res ∧ res.passed = true := by
  refine ⟨rfl, ?_⟩
  obtain ⟨res, hres, hiff⟩ :=
    (check_called_with_spec cwRun cwSpec).2.1 [(.str "a", .none)] rfl
  refine ⟨res, hres, hiff.mpr ?_⟩
  refine ⟨("g", PyVal.dict [], PyVal.none), ?_, by decide, [], rfl, ?_⟩
  · rw [show allToolCalls cwRun = [("g", PyVal.dict [], PyVal.none)] from rfl]
    simp
  · intro kv hkv
    simp only [List.mem_singleton] at hkv
    rw [hkv]
    simp [pyDictGet, pyEq]

/-- C5: a full contract check is total and structural — one result per
supplied assertion and policy in order, the scenario copied from the run;
overall pass is the conjunction of the individual results; an unknown
assertion or policy type yields a failing entry with a readable message; a
checker that raises is caught as a failing "Assertion error" entry, and a
checker that returns normally contributes its own result — for any behavior
of the external regex/schema libraries. -/
theorem engine_check_spec (ext : PyExternal) (run : AgentRun)
    (assertions : List AssertionSpec) (policies : List PolicySpec) :
    ((engineCheck ext run assertions policies).scenario = run.metadata.scenario)
    ∧ ((engineCheck ext run assertions policies).results
        = assertions.map (checkAssertion ext run) ++ policies.map (checkPolicy run))
    ∧ ((engineCheck ext run assertions policies).results.length
        = assertions.length + policies.length)
    ∧ ((engineCheck ext run assertions policies).passed = true ↔
        ∀ r ∈ (engineCheck ext run assertions policies).results, r.passed = true)
    ∧ (∀ spec : AssertionSpec, spec.type ∉ ["exact", "contains", "regex", "json_schema",
          "not_called", "called_with", "called_count"] →
        checkAssertion ext run spec
          = failRes spec ("Unknown assertion type: " ++ spec.type))
    ∧ (∀ (spec : AssertionSpec) (e : String),
        dispatchChecker ext run spec = some (.error e) →
        checkAssertion ext run spec = failRes spec ("Assertion error: " ++ e))
    ∧ (∀ (spec : AssertionSpec) (r : AssertionResult),
        dispatchChecker ext run spec = some (.ok r) →
        checkAssertion ext run spec = r)
    ∧ (∀ policy : PolicySpec, policy.type ∉ ["tool_allowlist", "requires_confirmation"] →
        checkPolicy run policy
          = failRes { type := "policy:" ++ policy.name }
              ("Unknown policy type: " ++ policy.type)) := by
  refine ⟨rfl, rfl, by simp [engineCheck], ?_, ?_, ?_, ?_, ?_⟩
  · simp [ContractResult.passed, List.all_eq_true]
  · intro spec hspec
    simp only [List.mem_cons, List.mem_singleton] at hspec
    push_neg at hspec
    obtain ⟨h1, h2, h3, h4, h5, h6, h7, _⟩ := hspec
    rw [checkAssertion, dispatchChecker]
    simp [h1, h2, h3, h4, h5, h6, h7]
  · intro spec e hd
    rw [checkAssertion, hd]
  · intro spec r hd
    rw [checkAssertion, hd]
  · intro policy hp
    simp only [List.mem_cons, List.mem_singleton] at hp
    push_neg at hp
    rw [checkPolicy, if_neg hp.1, if_neg hp.2.1]

/-- A trivial instantiation of the external libraries. -/
def trivialExt : PyExternal :=
  { reSearch := fun _ _ => .ok false
    jsValidate := fun _ _ => .ok }

/-- One-assistant-turn run used by the engine witnesses. -/
def c5Run : AgentRun :=
  { metadata := { scenario := "s" }
    turns := [{ index := 0, role := .assistant, content := some "hello" }] }

def c5SpecBad : AssertionSpec := { type := "bogus" }

/-- A `contains` spec whose non-string expected value makes the checker
raise `TypeError`. -/
def c5SpecErr : AssertionSpec :=
  { type := "contains", target := "final_response", value := .int 5 }

theorem engine_check_spec_witness :
    (c5SpecBad.type ∉ ["exact", "contains", "regex", "json_schema", "not_called",
        "called_with", "called_count"])
    ∧ checkAssertion trivialExt c5Run c5SpecBad
        = failRes c5SpecBad ("Unknown assertion type: " ++ c5SpecBad.type)
    ∧ dispatchChecker trivialExt c5Run c5SpecErr
        = some (.error "'in <string>' requires string as left operand")
    ∧ checkAssertion trivialExt c5Run c5SpecErr
        = failRes c5SpecErr
            ("Assertion error: " ++ "'in <string>' requires string as left operand")
    ∧ (engineCheck trivialExt c5Run [c5SpecBad, c5SpecErr] []).results.length = 2 := by
  have hmem : c5SpecBad.type ∉ ["exact", "contains", "regex", "json_schema", "not_called",
      "called_with", "called_count"] := by decide
  have herr : dispatchChecker trivialExt c5Run c5SpecErr
      = some (.error "'in <string>' requires string as left operand") := rfl
  refine ⟨hmem,
    (engine_check_spec trivialExt c5Run [c5SpecBad, c5SpecErr] []).2.2.2.2.1 c5SpecBad hmem,
    herr,
    (engine_check_spec trivialExt c5Run [c5SpecBad, c5SpecErr] []).2.2.2.2.2.1 c5SpecErr _ herr,
    (engine_check_spec trivialExt c5Run [c5SpecBad, c5SpecErr] []).2.2.1⟩

theorem turnRole_ofString_none_iff (role : String) :
    TurnRole.ofString role = Option.none ↔
      role ∉ ["system", "user", "assistant", "tool"] := by
  rw [TurnRole.ofString]
  by_cases h1 : role = "system" <;> by_cases h2 : role = "user" <;>
    by_cases h3 : role = "assistant" <;> by_cases h4 : role = "tool" <;>
    simp [h1, h2, h3, h4]

/-- C8: `add_turn` raises exactly for a role outside the closed set; for a
valid role it returns the appended turn, whose index is the previous
`turn_index` (equal to the count of previously appended turns whenever that
invariant holds, as it does at `init`), whose content is the string-coerced
input, and whose tool calls are exactly the dict-shaped entries in order,
with a missing function name defaulted to `""` (still stored) and a
non-dict arguments value coerced to an empty mapping; the new state appends
the turn and bumps the index by one. -/
theorem recorder_add_turn_spec (rec : Recorder) (role : String) (content : Option PyVal)
    (tool_calls : List PyVal) (latency_ms prompt_tokens completion_tokens : PyVal) :
    ((Recorder.add_turn rec role content tool_calls latency_ms prompt_tokens
        completion_tokens).1 = .error ("'" ++ role ++ "' is not a valid TurnRole")
      ↔ role ∉ ["system", "user", "assistant", "tool"])
    ∧ (∀ r, TurnRole.ofString role = some r →
        ∃ turn rec2,
          Recorder.add_turn rec role content tool_calls latency_ms prompt_tokens
              completion_tokens = (.ok turn, rec2)
          ∧ turn.role = r
          ∧ turn.index = rec.turn_index
          ∧ turn.content = content.map (fun c => match c with
              | PyVal.str s => s
              | v => pyStr v)
          ∧ turn.tool_calls = tool_calls.filterMap (fun tc => match tc with
              | PyVal.dict kv => some (parseToolCallEntry kv)
              | _ => Option.none)
          ∧ rec2.run.turns = rec.run.turns ++ [turn]
          ∧ rec2.turn_index = rec.turn_index + 1
          ∧ (rec.turn_index = (rec.run.turns.length : Int) →
              turn.index = (rec.run.turns.length : Int)
              ∧ rec2.turn_index = (rec2.run.turns.length : Int)))
    ∧ (∀ kv, dGet kv "function" = PyVal.none → (parseToolCallEntry kv).function = "")
    ∧ (∀ kv, (∀ kvs, dGet kv "arguments" ≠ PyVal.dict kvs) →
        (parseToolCallEntry kv).arguments = PyVal.dict [])
    ∧ ((Recorder.init "id" "at" "v").turn_index = 0
        ∧ (Recorder.init "id" "at" "v").run.turns = []) := by
  refine ⟨?_, ?_, ?_, ?_, rfl, rfl⟩
  · rw [← turnRole_ofString_none_iff]
    rw [Recorder.add_turn]
    rcases h : TurnRole.ofString role with _ | r
    · simp
    · simp
  · intro r h
    rw [Recorder.add_turn]
    rw [h]
    refine ⟨_, _, rfl, rfl, rfl, rfl, rfl, rfl, rfl, ?_⟩
    intro hinv
    constructor
    · exact hinv
    · simp [hinv]
  · intro kv h
    rw [parseToolCallEntry]
    simp [h]
  · intro kv h
    rw [parseToolCallEntry]
    rcases ha : dGet kv "arguments" with _ | _ | _ | _ | _ | _ | kvs | _ | _ | _ | _ <;>
      first
        | rfl
        | exact absurd ha (by exact fun hh => h kvs hh)

theorem recorder_add_turn_spec_witness :
    TurnRole.ofString "assistant" = some TurnRole.assistant
    ∧ ∃ turn rec2,
        Recorder.add_turn (Recorder.init "id" "at" "v") "assistant" (some (.str "hi"))
          [.dict [(.str "function", .str "f")], .int 7] .none (.int 0) (.int 0)
          = (.ok turn, rec2)
        ∧ turn.index = 0 ∧ turn.tool_calls.length = 1 := by
  have h : TurnRole.ofString "assistant" = some TurnRole.assistant := rfl
  obtain ⟨turn, rec2, heq, hrole, hidx, hcontent, hcalls, happ, hti, hinv⟩ :=
    (recorder_add_turn_spec (Recorder.init "id" "at" "v") "assistant" (some (.str "hi"))
      [.dict [(.str "function", .str "f")], .int 7] .none (.int 0) (.int 0)).2.1
      TurnRole.assistant h
  refine ⟨h, turn, rec2, heq, ?_, ?_⟩
  · rw [hidx]; rfl
  · rw [hcalls]; rfl

theorem mem_setSortInsert {z x : PyVal} {l : List PyVal} :
    z ∈ setSortInsert x l ↔ z = x ∨ z ∈ l := by
  induction l with
  | nil => simp [setSortInsert]
  | cons y ys ih =>
    rw [setSortInsert]
    by_cases h : pyRepr x < pyRepr y
    · simp [h]
    · simp [h, ih]
      tauto

theorem setSortInsert_perm (x : PyVal) (l : List PyVal) :
    (setSortInsert x l).Perm (x :: l) := by
  induction l with
  | nil => simp [setSortInsert]
  | cons y ys ih =>
    rw [setSortInsert]
    by_cases h : pyRepr x < pyRepr y
    · simp [h]
    · simp only [if_neg h]
      exact (List.Perm.cons y ih).trans (List.Perm.swap x y ys)

theorem setSorted_perm (l : List PyVal) : (setSorted l).Perm l := by
  induction l with
  | nil => simp [setSorted]
  | cons x xs ih =>
    rw [setSorted]
    exact (setSortInsert_perm x (setSorted xs)).trans (List.Perm.cons x ih)

theorem sorted_setSortInsert (x : PyVal) (l : List PyVal)
    (h : l.Sorted (fun a b => pyRepr a ≤ pyRepr b)) :
    (setSortInsert x l).Sorted (fun a b => pyRepr a ≤ pyRepr b) := by
  induction l with
  | nil => simp [setSortInsert]
  | cons y ys ih =>
    rw [setSortInsert]
    by_cases hlt : pyRepr x < pyRepr y
    · rw [if_pos hlt]
      refine List.sorted_cons.mpr ⟨?_, h⟩
      intro z hz
      rcases List.mem_cons.mp hz with h1 | h2
      · exact le_of_lt (h1 ▸ hlt)
      · exact le_trans (le_of_lt hlt) (List.rel_of_sorted_cons h z h2)
    · rw [if_neg hlt]
      have hys := h.of_cons
      refine List.sorted_cons.mpr ⟨?_, ih hys⟩
      intro z hz
      rcases mem_setSortInsert.mp hz with h1 | h2
      · exact h1 ▸ le_of_not_lt hlt
      · exact List.rel_of_sorted_cons h z h2

theorem sorted_setSorted (l : List PyVal) :
    (setSorted l).Sorted (fun a b => pyRepr a ≤ pyRepr b) := by
  induction l with
  | nil => simp [setSorted]
  | cons x xs ih => exact sorted_setSortInsert x (setSorted xs) ih

theorem toJsonList_eq_map (xs : List PyVal) :
    toJsonList xs = xs.map toJsonCompatible := by
  induction xs with
  | nil => rw [toJsonList]; rfl
  | cons x rest ih => rw [toJsonList, ih]; rfl

theorem toJsonKVs_eq_map (kvs : List (PyVal × PyVal)) :
    toJsonKVs kvs = kvs.map (fun kv => (PyVal.str (pyStr kv.1), toJsonCompatible kv.2)) := by
  induction kvs with
  | nil => rw [toJsonKVs]; rfl
  | cons kv rest ih =>
    rcases kv with ⟨k, v⟩
    rw [toJsonKVs, ih]
    rfl

theorem isJson_toJson : ∀ v : PyVal, isJson (toJsonCompatible v) = true := by
  refine toJsonCompatible.induct
    (fun v => isJson (toJsonCompatible v) = true)
    (fun xs => isJsonList (toJsonList xs) = true)
    (fun kvs => isJsonKVs (toJsonKVs kvs) = true)
    ?_ ?_ ?_ ?_ ?_ ?_ ?_ ?_ ?_ ?_ ?_ ?_ ?_ ?_ ?_
  · simp only [toJsonCompatible, isJson]
  · intro b; simp only [toJsonCompatible, isJson]
  · intro n; simp only [toJsonCompatible, isJson]
  · intro q; simp only [toJsonCompatible, isJson]
  · intro s; simp only [toJsonCompatible, isJson]
  · intro kvs ih; simp only [toJsonCompatible, isJson]; exact ih
  · intro xs ih; simp only [toJsonCompatible, isJson]; exact ih
  · intro xs ih; simp only [toJsonCompatible, isJson]; exact ih
  · intro s; simp only [toJsonCompatible, isJson]
  · intro s; simp only [toJsonCompatible, isJson]
  · intro s; simp only [toJsonCompatible, isJson]
  · simp only [toJsonList, isJsonList]
  · intro y rest ih1 ih2; simp only [toJsonList, isJsonList]; simp [ih1, ih2]
  · simp only [toJsonKVs, isJsonKVs]
  · intro k2 v2 rest ih1 ih2; simp only [toJsonKVs, isJsonKVs]; simp [ih1, ih2]

/-- C9: the encoder is a total function whose output always lies in the JSON
fragment — dict keys become `str(key)` strings, lists map elementwise, sets
become a list of the elements reordered into (stable) ascending `repr`-key
order, `Path`/`isoformat` objects become their string/ISO text, and any
other object falls back to its string form; hence `run_to_dict` produces a
JSON document for every `AgentRun`. -/
theorem encoder_total_spec :
    (∀ run : AgentRun, isJson (run_to_dict run) = true)
    ∧ (∀ v : PyVal, isJson (toJsonCompatible v) = true)
    ∧ (∀ kvs, toJsonCompatible (PyVal.dict kvs)
        = PyVal.dict (kvs.map (fun kv => (PyVal.str (pyStr kv.1), toJsonCompatible kv.2))))
    ∧ (∀ xs, toJsonCompatible (PyVal.list xs) = PyVal.list (xs.map toJsonCompatible))
    ∧ (∀ xs, toJsonCompatible (PyVal.pyset xs)
        = PyVal.list ((setSorted xs).map toJsonCompatible)
        ∧ (setSorted xs).Perm xs
        ∧ (setSorted xs).Sorted (fun a b => pyRepr a ≤ pyRepr b))
    ∧ (∀ s, toJsonCompatible (PyVal.path s) = PyVal.str s)
    ∧ (∀ s, toJsonCompatible (PyVal.isoObj s) = PyVal.str s)
    ∧ (∀ s, toJsonCompatible (PyVal.obj s) = PyVal.str s) := by
  refine ⟨?_, isJson_toJson, ?_, ?_, ?_, ?_, ?_, ?_⟩
  · intro run
    rw [run_to_dict]
    exact isJson_toJson _
  · intro kvs
    rw [toJsonCompatible, toJsonKVs_eq_map]
  · intro xs
    rw [toJsonCompatible, toJsonList_eq_map]
  · intro xs
    exact ⟨by rw [toJsonCompatible, toJsonList_eq_map], setSorted_perm xs, sorted_setSorted xs⟩
  · intro s; rw [toJsonCompatible]
  · intro s; rw [toJsonCompatible]
  · intro s; rw [toJsonCompatible]

/-- C10: decode silently drops non-mapping entries — a decoded run's turn
list is exactly the dict-shaped `turns` entries decoded in order, inserting
a non-mapping entry anywhere leaves the decoded entries unchanged, and a
decoded turn's tool calls are exactly the dict-shaped `tool_calls` entries
decoded in order (same insertion invariance). -/
theorem decode_drops_nondict_spec (data : List (PyVal × PyVal)) :
    (∀ run, run_from_dict data = .ok run →
      mapME turnFromDict ((coerceList (dGet data "turns")).filterMap dictEntry)
        = .ok run.turns)
    ∧ (∀ (l1 l2 : List PyVal) (junk : PyVal), dictEntry junk = Option.none →
        (l1 ++ junk :: l2).filterMap dictEntry = (l1 ++ l2).filterMap dictEntry)
    ∧ (∀ (kv : List (PyVal × PyVal)) (turn : Turn), turnFromDict kv = .ok turn →
        turn.tool_calls = (coerceList (dGet kv "tool_calls")).filterMap toolCallFromDict)
    ∧ (∀ (l1 l2 : List PyVal) (junk : PyVal), toolCallFromDict junk = Option.none →
        (l1 ++ junk :: l2).filterMap toolCallFromDict
          = (l1 ++ l2).filterMap toolCallFromDict)
    ∧ (∀ junk : PyVal, (∀ kv, junk ≠ PyVal.dict kv) →
        dictEntry junk = Option.none ∧ toolCallFromDict junk = Option.none) := by
  refine ⟨?_, ?_, ?_, ?_, ?_⟩
  · intro run h
    simp only [run_from_dict] at h
    rcases hm : mapME turnFromDict ((coerceList (dGet data "turns")).filterMap dictEntry)
      with e | turns
    · rw [hm] at h
      simp [Except.bind] at h
    · rw [hm] at h
      simp only [Except.bind, pure, Except.pure] at h
      have h2 := Except.ok.inj h
      rw [← h2]
  · intro l1 l2 junk hj
    simp [List.filterMap_append, List.filterMap_cons, hj]
  · intro kv turn h
    rw [turnFromDict] at h
    by_cases hr : coerceStr (dGet kv "role") "" = ""
    · rw [if_pos hr] at h
      cases h
    · rw [if_neg hr] at h
      rcases ho : TurnRole.ofString (coerceStr (dGet kv "role") "") with _ | r
      · rw [ho] at h
        cases h
      · rw [ho] at h
        have h2 := Except.ok.inj h
        rw [← h2]
  · intro l1 l2 junk hj
    simp [List.filterMap_append, List.filterMap_cons, hj]
  · intro junk hj
    rcases junk with _ | _ | _ | _ | _ | _ | kv | _ | _ | _ | _ <;>
      first
        | exact ⟨rfl, rfl⟩
        | exact absurd rfl (hj kv)

/-- A document whose `turns` array mixes two non-dict entries with one
valid turn dict. -/
def c10doc : List (PyVal × PyVal) :=
  [(.str "turns", .list [.int 5, .dict [(.str "role", .str "user")], .str "x"])]

/-- The run `c10doc` decodes to: all defaults, one user turn. -/
def c10run : AgentRun :=
  { turns := [{ index := 0, role := .user }] }

theorem decode_drops_nondict_spec_witness :
    dictEntry (PyVal.int 5) = Option.none
    ∧ ([] ++ PyVal.int 5 :: [PyVal.dict [(.str "role", .str "user")]]).filterMap dictEntry
        = ([] ++ [PyVal.dict [(.str "role", .str "user")]]).filterMap dictEntry
    ∧ run_from_dict c10doc = .ok c10run
    ∧ mapME turnFromDict ((coerceList (dGet c10doc "turns")).filterMap dictEntry)
        = .ok c10run.turns := by
  have hdec : run_from_dict c10doc = .ok c10run := rfl
  exact ⟨rfl,
    (decode_drops_nondict_spec []).2.1 [] [PyVal.dict [(.str "role", .str "user")]]
      (PyVal.int 5) rfl,
    hdec,
    (decode_drops_nondict_spec c10doc).1 c10run hdec⟩

theorem natDigits_mem : ∀ (n : Nat), ∀ c ∈ natDigits n, c.isDigit = true := by
  have hd : ∀ m, m < 10 → (Nat.digitChar m).isDigit = true := by decide
  intro n
  induction n using natDigits.induct with
  | case1 n h =>
    rw [natDigits, dif_pos h]
    intro c hc
    simp at hc
    exact hc ▸ hd n h
  | case2 n h ih =>
    rw [natDigits, dif_neg h]
    intro c hc
    rcases List.mem_append.mp hc with h1 | h2
    · exact ih c h1
    · simp at h2
      exact h2 ▸ hd (n % 10) (Nat.mod_lt _ (by omega))

theorem data_append (a b : String) : (a ++ b).data = a.data ++ b.data := rfl

theorem intStr_chars (n : Int) : ∀ c ∈ (intStr n).data, c.isDigit = true ∨ c = '-' := by
  cases n with
  | ofNat m =>
    intro c hc
    exact Or.inl (natDigits_mem m c hc)
  | negSucc m =>
    intro c hc
    rcases List.mem_cons.mp hc with h1 | h2
    · exact Or.inr h1
    · exact Or.inl (natDigits_mem (m + 1) c h2)

theorem floatStr_chars (q : Rat) :
    ∀ c ∈ (floatStr q).data, c.isDigit = true ∨ c = '-' ∨ c = '/' := by
  intro c hc
  rw [floatStr, data_append, data_append] at hc
  rcases List.mem_append.mp hc with h1 | h2
  · rcases List.mem_append.mp h1 with h3 | h4
    · rcases intStr_chars q.num c h3 with h | h
      · exact Or.inl h
      · exact Or.inr (Or.inl h)
    · simp at h4
      exact Or.inr (Or.inr h4)
  · exact Or.inl (natDigits_mem q.den c h2)

theorem charclass_ne_role (s : String)
    (h : ∀ c ∈ s.data, c.isDigit = true ∨ c = '-' ∨ c = '/') :
    ∀ r : TurnRole, s ≠ r.value := by
  intro r heq
  cases r with
  | system =>
    have : 's' ∈ s.data := by rw [heq]; decide
    rcases h 's' this with h1 | h1 | h1 <;> simp at h1
  | user =>
    have : 'u' ∈ s.data := by rw [heq]; decide
    rcases h 'u' this with h1 | h1 | h1 <;> simp at h1
  | assistant =>
    have : 'a' ∈ s.data := by rw [heq]; decide
    rcases h 'a' this with h1 | h1 | h1 <;> simp at h1
  | tool =>
    have : 't' ∈ s.data := by rw [heq]; decide
    rcases h 't' this with h1 | h1 | h1 <;> simp at h1

theorem bracket_ne_role (t : String) (c0 : Char)
    (hc : c0 = '[' ∨ c0 = '\x7b') : ∀ r : TurnRole, (⟨c0 :: t.data⟩ : String) ≠ r.value := by
  intro r heq
  have hd := congrArg String.data heq
  simp only at hd
  cases r <;> (rcases hc with h | h <;> (subst h; simp [TurnRole.value] at hd))

theorem ofString_eq_some {s : String} {r : TurnRole}
    (h : TurnRole.ofString s = some r) : s = r.value := by
  rw [TurnRole.ofString] at h
  by_cases h1 : s = "system"
  · rw [if_pos h1] at h
    cases h
    exact h1
  rw [if_neg h1] at h
  by_cases h2 : s = "user"
  · rw [if_pos h2] at h
    cases h
    exact h2
  rw [if_neg h2] at h
  by_cases h3 : s = "assistant"
  · rw [if_pos h3] at h
    cases h
    exact h3
  rw [if_neg h3] at h
  by_cases h4 : s = "tool"
  · rw [if_pos h4] at h
    cases h
    exact h4
  rw [if_neg h4] at h
  cases h

theorem ofString_value (r : TurnRole) : TurnRole.ofString r.value = some r := by
  cases r <;> rfl

/-- Over JSON values (the output of `json.load`), the decoded role lookup
succeeds exactly on the four role strings: `str()`-coercion of any
non-string JSON value can never produce a role name. -/
theorem role_valid_iff (v : PyVal) (hv : isJson v = true) :
    (∃ r : TurnRole, TurnRole.ofString (coerceStr v "") = some r) ↔
      (∃ r : TurnRole, v = PyVal.str (TurnRole.value r)) := by
  constructor
  · rintro ⟨r, hr⟩
    have hs := ofString_eq_some hr
    rcases v with _ | b | n | q | s | xs | kvs | _ | _ | _ | _
    · replace hs : "" = r.value := hs
      cases r <;> simp [TurnRole.value] at hs
    · exfalso
      replace hs : pyStr (PyVal.bool b) = r.value := hs
      cases b <;> (simp only [pyStr, pyRepr] at hs; cases r <;> simp [TurnRole.value] at hs)
    · exfalso
      replace hs : pyStr (PyVal.int n) = r.value := hs
      have : pyStr (PyVal.int n) = intStr n := by simp [pyStr, pyRepr]
      rw [this] at hs
      refine charclass_ne_role (intStr n) ?_ r hs
      intro c hc
      rcases intStr_chars n c hc with h | h
      · exact Or.inl h
      · exact Or.inr (Or.inl h)
    · exfalso
      replace hs : pyStr (PyVal.float q) = r.value := hs
      have : pyStr (PyVal.float q) = floatStr q := by simp [pyStr, pyRepr]
      rw [this] at hs
      exact charclass_ne_role (floatStr q) (floatStr_chars q) r hs
    · replace hs : s = r.value := hs
      exact ⟨r, by rw [hs]⟩
    · exfalso
      replace hs : pyStr (PyVal.list xs) = r.value := hs
      simp only [pyStr, pyRepr] at hs
      have hdata : ((("[" ++ String.intercalate ", " (pyReprList xs)) ++ "]")).data
          = '[' :: ((String.intercalate ", " (pyReprList xs)) ++ "]").data := rfl
      have : (⟨'[' :: ((String.intercalate ", " (pyReprList xs)) ++ "]").data⟩ : String)
          = TurnRole.value r := by
        rw [← hdata]
        exact hs
      exact bracket_ne_role _ '[' (Or.inl rfl) r this
    · exfalso
      replace hs : pyStr (PyVal.dict kvs) = r.value := hs
      simp only [pyStr, pyRepr] at hs
      have hdata : ((("\x7b" ++ String.intercalate ", " (pyReprKVs kvs)) ++ "\x7d")).data
          = '\x7b' :: ((String.intercalate ", " (pyReprKVs kvs)) ++ "\x7d").data := rfl
      have : (⟨'\x7b' :: ((String.intercalate ", " (pyReprKVs kvs)) ++ "\x7d").data⟩ : String)
          = TurnRole.value r := by
        rw [← hdata]
        exact hs
      exact bracket_ne_role _ '\x7b' (Or.inr rfl) r this
    · simp [isJson] at hv
    · simp [isJson] at hv
    · simp [isJson] at hv
    · simp [isJson] at hv
  · rintro ⟨r, hr⟩
    subst hr
    exact ⟨r, ofString_value r⟩

theorem isJson_dGet {kvs : List (PyVal × PyVal)} (h : isJsonKVs kvs = true) (k : String) :
    isJson (dGet kvs k) = true := by
  induction kvs with
  | nil => simp [dGet, isJson]
  | cons kv rest ih =>
    rcases kv with ⟨k2, v⟩
    rcases k2 with _ | _ | _ | _ | s | _ | _ | _ | _ | _ | _ <;>
      simp only [isJsonKVs] at h
    all_goals try cases h
    rw [dGet]
    obtain ⟨h1, h2⟩ : isJson v = true ∧ isJsonKVs rest = true := by simpa using h
    by_cases hs : s = k
    · rw [if_pos hs]
      exact h1
    · rw [if_neg hs]
      exact ih h2

theorem isJsonList_mem {xs : List PyVal} (h : isJsonList xs = true) :
    ∀ x ∈ xs, isJson x = true := by
  induction xs with
  | nil => simp
  | cons y ys ih =>
    rw [isJsonList] at h
    obtain ⟨h1, h2⟩ : isJson y = true ∧ isJsonList ys = true := by simpa using h
    intro x hx
    rcases List.mem_cons.mp hx with h3 | h3
    · exact h3 ▸ h1
    · exact ih h2 x h3

theorem isJson_coerceList {v : PyVal} (h : isJson v = true) :
    ∀ x ∈ coerceList v, isJson x = true := by
  rcases v with _ | _ | _ | _ | _ | xs | _ | _ | _ | _ | _ <;>
    simp [coerceList]
  rw [isJson] at h
  exact fun x hx => isJsonList_mem h x hx

theorem mapME_error_iff {α β : Type} (f : α → Except String β) :
    ∀ l : List α, (∃ e, mapME f l = .error e) ↔ ∃ x ∈ l, ∃ e, f x = .error e := by
  intro l
  induction l with
  | nil => simp [mapME]
  | cons x xs ih =>
    rw [mapME]
    rcases hf : f x with e | b
    · simp [hf]
    · rcases hm : mapME f xs with e2 | bs
      · simp only [hm]
        simp [hf]
        rw [← ih]
        simp [hm]
      · simp only [hm]
        simp [hf]
        intro y hy e hye
        have : ∃ e, mapME f xs = .error e := ih.mpr ⟨y, hy, e, hye⟩
        rw [hm] at this
        rcases this with ⟨e3, he3⟩
        cases he3

theorem turnFromDict_error_iff (kv : List (PyVal × PyVal)) :
    (∃ e, turnFromDict kv = .error e) ↔
      ¬ ∃ r : TurnRole, TurnRole.ofString (coerceStr (dGet kv "role") "") = some r := by
  rw [turnFromDict]
  by_cases hr : coerceStr (dGet kv "role") "" = ""
  · rw [if_pos hr]
    simp [hr, TurnRole.ofString]
  · rw [if_neg hr]
    rcases ho : TurnRole.ofString (coerceStr (dGet kv "role") "") with _ | r
    · simp [ho]
    · simp [ho]

theorem dictEntry_eq_some {t : PyVal} {kv : List (PyVal × PyVal)} :
    dictEntry t = some kv ↔ t = PyVal.dict kv := by
  cases t <;> simp [dictEntry]

theorem run_from_dict_error_iff (data : List (PyVal × PyVal)) :
    (∃ e, run_from_dict data = .error e) ↔
      (∃ e, mapME turnFromDict ((coerceList (dGet data "turns")).filterMap dictEntry)
        = .error e) := by
  rcases hm : mapME turnFromDict ((coerceList (dGet data "turns")).filterMap dictEntry)
    with e | turns
  · simp only [run_from_dict, hm]
    simp [Except.bind]
  · simp only [run_from_dict, hm]
    constructor
    · rintro ⟨e, he⟩
      exact Except.noConfusion he
    · rintro ⟨e, he⟩
      cases he

/-- C3: decoding a document with every optional section null or absent
succeeds with the documented default run; a turn dict with only a valid
`role` decodes to the default turn; and (over JSON documents) decoding
raises exactly when some dict-shaped entry of `turns` lacks a `role` value
drawn from the closed role-string set — `str()`-coercion never turns a
non-string value into a role. -/
theorem decode_defaults_and_role_spec :
    (∀ data : List (PyVal × PyVal),
      dGet data "schema_version" = .none → dGet data "run_id" = .none →
      dGet data "source" = .none → dGet data "model" = .none →
      dGet data "metadata" = .none → dGet data "summary" = .none →
      dGet data "turns" = .none →
      run_from_dict data = .ok {})
    ∧ (∀ (kv : List (PyVal × PyVal)) (role : TurnRole),
        dGet kv "role" = .str role.value → dGet kv "index" = .none →
        dGet kv "content" = .none → dGet kv "tool_calls" = .none →
        dGet kv "timing" = .none → dGet kv "tokens" = .none →
        turnFromDict kv = .ok { index := 0, role := role })
    ∧ (∀ data : List (PyVal × PyVal), isJsonKVs data = true →
        ((∃ e, run_from_dict data = .error e) ↔
          ∃ t ∈ coerceList (dGet data "turns"), ∃ kv, t = PyVal.dict kv
            ∧ ¬ ∃ r : TurnRole, dGet kv "role" = PyVal.str (TurnRole.value r))) := by
  refine ⟨?_, ?_, ?_⟩
  · intro data hsv hrid hsrc hmod hmeta hsum hturns
    simp only [run_from_dict, hsv, hrid, hsrc, hmod, hmeta, hsum, hturns]
    rfl
  · intro kv role hrole hidx hcontent htc htiming htokens
    simp only [turnFromDict, hrole, hidx, hcontent, htc, htiming, htokens]
    cases role <;> rfl
  · intro data hJ
    rw [run_from_dict_error_iff, mapME_error_iff]
    have hturnsJ : isJson (dGet data "turns") = true := isJson_dGet hJ "turns"
    constructor
    · rintro ⟨kvt, hmem, herr⟩
      rcases List.mem_filterMap.mp hmem with ⟨t, ht, hde⟩
      have htd : t = PyVal.dict kvt := dictEntry_eq_some.mp hde
      have htJ : isJson t = true := isJson_coerceList hturnsJ t ht
      have hkvJ : isJsonKVs kvt = true := by
        rw [htd] at htJ
        simpa [isJson] using htJ
      have hroleJ : isJson (dGet kvt "role") = true := isJson_dGet hkvJ "role"
      refine ⟨t, ht, kvt, htd, ?_⟩
      have hnone := (turnFromDict_error_iff kvt).mp herr
      intro hcon
      apply hnone
      exact (role_valid_iff (dGet kvt "role") hroleJ).mpr hcon
    · rintro ⟨t, ht, kvt, htd, hbad⟩
      have htJ : isJson t = true := isJson_coerceList hturnsJ t ht
      have hkvJ : isJsonKVs kvt = true := by
        rw [htd] at htJ
        simpa [isJson] using htJ
      have hroleJ : isJson (dGet kvt "role") = true := isJson_dGet hkvJ "role"
      refine ⟨kvt, List.mem_filterMap.mpr ⟨t, ht, dictEntry_eq_some.mpr htd⟩, ?_⟩
      apply (turnFromDict_error_iff kvt).mpr
      intro hcon
      exact hbad ((role_valid_iff (dGet kvt "role") hroleJ).mp hcon)

theorem decode_defaults_and_role_spec_witness :
    run_from_dict [(.str "source", PyVal.none), (.str "turns", PyVal.none)] = .ok {}
    ∧ turnFromDict [(.str "role", .str "user")] = .ok { index := 0, role := .user }
    ∧ (∃ e, run_from_dict [(.str "turns", .list [.dict [(.str "role", .int 3)]])]
        = .error e) := by
  refine ⟨?_, ?_, ?_⟩
  · exact decode_defaults_and_role_spec.1 _ rfl rfl rfl rfl rfl rfl rfl
  · exact decode_defaults_and_role_spec.2.1 _ TurnRole.user rfl rfl rfl rfl rfl rfl
  · have hJ : isJsonKVs [((.str "turns" : PyVal),
        (.list [.dict [(.str "role", .int 3)]] : PyVal))] = true := by
      simp [isJsonKVs, isJson, isJsonList]
    refine (decode_defaults_and_role_spec.2.2 _ hJ).mpr ?_
    refine ⟨.dict [(.str "role", .int 3)], by simp [dGet, coerceList],
      [(.str "role", .int 3)], rfl, ?_⟩
    rintro ⟨r, hr⟩
    exact PyVal.noConfusion hr

theorem toJson_fixed :
    ∀ v : PyVal, isJson v = true → toJsonCompatible v = v := by
  refine toJsonCompatible.induct
    (fun v => isJson v = true → toJsonCompatible v = v)
    (fun xs => isJsonList xs = true → toJsonList xs = xs)
    (fun kvs => isJsonKVs kvs = true → toJsonKVs kvs = kvs)
    ?_ ?_ ?_ ?_ ?_ ?_ ?_ ?_ ?_ ?_ ?_ ?_ ?_ ?_ ?_
  · intro _; rw [toJsonCompatible]
  · intro b _; rw [toJsonCompatible]
  · intro n _; rw [toJsonCompatible]
  · intro q _; rw [toJsonCompatible]
  · intro s _; rw [toJsonCompatible]
  · intro kvs ih h
    rw [isJson] at h
    rw [toJsonCompatible, ih h]
  · intro xs ih h
    rw [isJson] at h
    rw [toJsonCompatible, ih h]
  · intro xs ih h
    simp [isJson] at h
  · intro s h
    simp [isJson] at h
  · intro s h
    simp [isJson] at h
  · intro s h
    simp [isJson] at h
  · intro _; rw [toJsonList]
  · intro y rest ih1 ih2 h
    rw [isJsonList] at h
    obtain ⟨h1, h2⟩ : isJson y = true ∧ isJsonList rest = true := by simpa using h
    rw [toJsonList, ih1 h1, ih2 h2]
  · intro _; rw [toJsonKVs]
  · intro k2 v2 rest ih1 ih2 h
    rcases k2 with _ | _ | _ | _ | s | _ | _ | _ | _ | _ | _ <;> simp only [isJsonKVs] at h
    all_goals try cases h
    obtain ⟨h1, h2⟩ : isJson v2 = true ∧ isJsonKVs rest = true := by simpa using h
    rw [toJsonKVs, ih1 h1, ih2 h2, pyStr]

theorem coerceOptionalFloat_optFloatVal (o : Option Rat) :
    coerceOptionalFloat (optFloatVal o) = o := by
  cases o <;> rfl

theorem coerceOptionalInt_optIntVal (o : Option Int) :
    coerceOptionalInt (optIntVal o) = o := by
  cases o <;> rfl

/-- Keys of a dict body are all string values. -/
def strKeys (l : List (PyVal × PyVal)) : Prop :=
  ∀ kv ∈ l, ∃ s, kv.1 = PyVal.str s

theorem dGet_toJsonKVs (l : List (PyVal × PyVal)) (hk : strKeys l) (k : String) :
    dGet (toJsonKVs l) k = toJsonCompatible (dGet l k) := by
  induction l with
  | nil =>
    rw [toJsonKVs]
    show PyVal.none = toJsonCompatible PyVal.none
    rw [toJsonCompatible]
  | cons kv rest ih =>
    obtain ⟨s, hs⟩ := hk kv (List.mem_cons_self kv rest)
    rcases kv with ⟨k1, v⟩
    simp only at hs
    subst hs
    rw [toJsonKVs, pyStr]
    rw [dGet, dGet]
    by_cases hsk : s = k
    · rw [if_pos hsk, if_pos hsk]
    · rw [if_neg hsk, if_neg hsk]
      exact ih (fun kv2 h2 => hk kv2 (List.mem_cons_of_mem _ h2))

/-- Whether a dict body holds an entry with string key `k`. -/
def hasKeyStr (l : List (PyVal × PyVal)) (k : String) : Bool :=
  l.any (fun kv => match kv.1 with
    | PyVal.str s => s = k
    | _ => false)

theorem dGet_append (l1 l2 : List (PyVal × PyVal)) (k : String) :
    dGet (l1 ++ l2) k = if hasKeyStr l1 k then dGet l1 k else dGet l2 k := by
  induction l1 with
  | nil => simp [hasKeyStr, dGet]
  | cons kv rest ih =>
    rcases kv with ⟨k1, v⟩
    cases k1
    case str s =>
      by_cases hsk : s = k
      · have h1 : dGet ((PyVal.str s, v) :: (rest ++ l2)) k = v := by
          rw [dGet, if_pos hsk]
        have h2 : dGet ((PyVal.str s, v) :: rest) k = v := by
          rw [dGet, if_pos hsk]
        have hcond : hasKeyStr ((PyVal.str s, v) :: rest) k = true := by
          simp [hasKeyStr, hsk]
        rw [List.cons_append, h1, hcond, h2]
        simp
      · have h1 : dGet ((PyVal.str s, v) :: (rest ++ l2)) k = dGet (rest ++ l2) k := by
          rw [dGet, if_neg hsk]
        have h2 : dGet ((PyVal.str s, v) :: rest) k = dGet rest k := by
          rw [dGet, if_neg hsk]
        have hcond : hasKeyStr ((PyVal.str s, v) :: rest) k = hasKeyStr rest k := by
          simp [hasKeyStr, hsk]
        rw [List.cons_append, h1, hcond, h2]
        exact ih
    all_goals exact ih

/-- Boolean check that every key of a dict body is a string. -/
def allStrKeys (l : List (PyVal × PyVal)) : Bool :=
  l.all (fun kv => match kv.1 with
    | PyVal.str _ => true
    | _ => false)

theorem strKeys_of_all {l : List (PyVal × PyVal)} (h : allStrKeys l = true) : strKeys l := by
  intro kv hkv
  have := List.all_eq_true.mp h kv hkv
  rcases kv with ⟨k1, v⟩
  rcases k1 with _ | _ | _ | _ | s | _ | _ | _ | _ | _ | _ <;> simp at this ⊢

theorem strKeys_append {l1 l2 : List (PyVal × PyVal)} (h1 : strKeys l1) (h2 : strKeys l2) :
    strKeys (l1 ++ l2) := by
  intro kv hkv
  rcases List.mem_append.mp hkv with h | h
  · exact h1 kv h
  · exact h2 kv h

theorem strKeys_turnBody (t : Turn) : strKeys (turnBody t) := by
  rw [turnBody]
  refine strKeys_append (strKeys_append (strKeys_append (strKeys_append ?_ ?_) ?_) ?_) ?_
  · exact strKeys_of_all rfl
  · rcases t.content with _ | c <;> exact strKeys_of_all rfl
  · by_cases he : t.tool_calls.isEmpty
    · rw [if_pos he]
      exact strKeys_of_all rfl
    · rw [if_neg he]
      exact strKeys_of_all rfl
  · rcases t.timing with _ | tm <;> exact strKeys_of_all rfl
  · rcases t.tokens with _ | tk <;> exact strKeys_of_all rfl

theorem strKeys_runBody (run : AgentRun) : strKeys (runBody run) :=
  strKeys_of_all rfl

theorem toJson_optFloatVal (o : Option Rat) :
    toJsonCompatible (optFloatVal o) = optFloatVal o := by
  cases o <;> simp [optFloatVal, toJsonCompatible]

theorem toJson_optIntVal (o : Option Int) :
    toJsonCompatible (optIntVal o) = optIntVal o := by
  cases o <;> simp [optIntVal, toJsonCompatible]

theorem toolCall_round_trip (tc : ToolCall)
    (hargs : ∃ kvs, tc.arguments = PyVal.dict kvs)
    (haj : isJson tc.arguments = true) (hrj : isJson tc.result = true) :
    toolCallFromDict (toJsonCompatible (toolCallToDict tc)) = some tc := by
  obtain ⟨akvs, hak⟩ := hargs
  rw [toolCallToDict, toJsonCompatible, toolCallFromDict]
  have hkeys : strKeys [((.str "id" : PyVal), (.str tc.id : PyVal)),
      (.str "function", .str tc.function),
      (.str "arguments", tc.arguments),
      (.str "result", tc.result),
      (.str "duration_ms", optFloatVal tc.duration_ms)] := strKeys_of_all (by
    rw [hak]
    rcases tc.duration_ms with _ | q <;> rfl)
  simp only [dGet_toJsonKVs _ hkeys]
  simp only [show dGet [((.str "id" : PyVal), (.str tc.id : PyVal)),
      (.str "function", .str tc.function),
      (.str "arguments", tc.arguments),
      (.str "result", tc.result),
      (.str "duration_ms", optFloatVal tc.duration_ms)] "id" = .str tc.id from rfl,
    show dGet [((.str "id" : PyVal), (.str tc.id : PyVal)),
      (.str "function", .str tc.function),
      (.str "arguments", tc.arguments),
      (.str "result", tc.result),
      (.str "duration_ms", optFloatVal tc.duration_ms)] "function" = .str tc.function from rfl,
    show dGet [((.str "id" : PyVal), (.str tc.id : PyVal)),
      (.str "function", .str tc.function),
      (.str "arguments", tc.arguments),
      (.str "result", tc.result),
      (.str "duration_ms", optFloatVal tc.duration_ms)] "arguments" = tc.arguments from rfl,
    show dGet [((.str "id" : PyVal), (.str tc.id : PyVal)),
      (.str "function", .str tc.function),
      (.str "arguments", tc.arguments),
      (.str "result", tc.result),
      (.str "duration_ms", optFloatVal tc.duration_ms)] "result" = tc.result from rfl,
    show dGet [((.str "id" : PyVal), (.str tc.id : PyVal)),
      (.str "function", .str tc.function),
      (.str "arguments", tc.arguments),
      (.str "result", tc.result),
      (.str "duration_ms", optFloatVal tc.duration_ms)] "duration_ms"
      = optFloatVal tc.duration_ms from rfl]
  rw [toJson_fixed _ haj, toJson_fixed _ hrj, toJson_optFloatVal,
    coerceOptionalFloat_optFloatVal, hak]
  simp only [toJsonCompatible, coerceStr, coerceToolArguments]
  rw [← hak]

theorem decode_calls_field (tcs : List ToolCall)
    (h : ∀ tc ∈ tcs, (∃ kvs, tc.arguments = PyVal.dict kvs)
        ∧ isJson tc.arguments = true ∧ isJson tc.result = true) :
    (coerceList (toJsonCompatible (PyVal.list (tcs.map toolCallToDict)))).filterMap
      toolCallFromDict = tcs := by
  rw [toJsonCompatible, toJsonList_eq_map, coerceList, List.map_map, List.filterMap_map]
  induction tcs with
  | nil => rfl
  | cons tc rest ih =>
    rw [List.filterMap_cons]
    have hc := h tc (List.mem_cons_self tc rest)
    have : (toolCallFromDict ∘ (toJsonCompatible ∘ toolCallToDict)) tc = some tc :=
      toolCall_round_trip tc hc.1 hc.2.1 hc.2.2
    rw [this, ih (fun tc2 h2 => h tc2 (List.mem_cons_of_mem _ h2))]

theorem turn_round_trip (t : Turn)
    (h : ∀ tc ∈ t.tool_calls, (∃ kvs, tc.arguments = PyVal.dict kvs)
        ∧ isJson tc.arguments = true ∧ isJson tc.result = true) :
    turnFromDict (toJsonKVs (turnBody t)) = Except.ok t := by
  have hkeys := strKeys_turnBody t
  have hne : t.role.value ≠ "" := by cases t.role <;> decide
  have hdc := decode_calls_field t.tool_calls h
  obtain ⟨idx, role, content, tcs, tm, tk⟩ := t
  rw [turnFromDict]
  simp only [dGet_toJsonKVs _ hkeys]
  rcases content with _ | c <;> rcases tcs with _ | ⟨tc0, tcrest⟩ <;>
    rcases tm with _ | ⟨la, tf⟩ <;> rcases tk with _ | ⟨pr, cp, tt⟩ <;>
    simp_all [turnBody, dGet, toJsonCompatible, toJsonKVs, toJsonList, pyStr,
      toJson_optFloatVal, coerceOptionalFloat_optFloatVal, coerceStr, coerceInt,
      pyInt?, ofString_value, coerceList]

theorem toJsonList_fixed (xs : List PyVal) (h : isJsonList xs = true) :
    toJsonList xs = xs := by
  induction xs with
  | nil => rw [toJsonList]
  | cons y ys ih =>
    rw [isJsonList] at h
    obtain ⟨h1, h2⟩ : isJson y = true ∧ isJsonList ys = true := by simpa using h
    rw [toJsonList, toJson_fixed y h1, ih h2]

theorem mapME_decode_turns (l : List Turn)
    (h : ∀ t ∈ l, turnFromDict (toJsonKVs (turnBody t)) = Except.ok t) :
    mapME turnFromDict
      ((List.map (fun t => toJsonCompatible (turnToDict t)) l).filterMap dictEntry)
      = Except.ok l := by
  induction l with
  | nil => rfl
  | cons t rest ih =>
    rw [List.map_cons, List.filterMap_cons]
    have he : dictEntry (toJsonCompatible (turnToDict t)) = some (toJsonKVs (turnBody t)) := by
      rw [turnToDict, toJsonCompatible, dictEntry]
    rw [he, mapME, h t (List.mem_cons_self t rest),
      ih (fun y hy => h y (List.mem_cons_of_mem _ hy))]

/-- Decoding an encoded run reproduces every scalar section of the run
exactly, with the turn list replaced by whatever the encoded `turns` array
decodes to (given JSON-compatible metadata tags). -/
theorem run_from_to_dict_eq (r : AgentRun) (l : List Turn)
    (hmap : mapME turnFromDict
      ((coerceList (PyVal.list (toJsonList (List.map turnToDict r.turns)))).filterMap dictEntry)
      = Except.ok l)
    (htags2 : toJsonList r.metadata.tags = r.metadata.tags) :
    run_from_dict (coerceDictKVs (run_to_dict r)) = Except.ok { r with turns := l } := by
  have hkeys := strKeys_runBody r
  have hdoc : coerceDictKVs (run_to_dict r) = toJsonKVs (runBody r) := by
    rw [run_to_dict, toJsonCompatible, coerceDictKVs]
  have hget : dGet (runBody r) "turns" = PyVal.list (List.map turnToDict r.turns) := rfl
  have hturnsget : dGet (toJsonKVs (runBody r)) "turns"
      = PyVal.list (toJsonList (List.map turnToDict r.turns)) := by
    rw [dGet_toJsonKVs _ hkeys, hget, toJsonCompatible]
  rw [hdoc]
  simp only [run_from_dict]
  rw [hturnsget, hmap]
  simp only [Except.bind, pure, Except.pure]
  simp only [dGet_toJsonKVs _ hkeys]
  obtain ⟨sv, rid, rat, rv, sdk, model, meta, summary, turns⟩ := r
  obtain ⟨prov, mname, temp, topp, maxtok, seed⟩ := model
  obtain ⟨scen, tags, desc⟩ := meta
  obtain ⟨tturns, tdur, ttok, ttc, cost⟩ := summary
  obtain ⟨tp, tcm, ttl⟩ := ttok
  simp_all only []
  simp [runBody, dGet, toJsonCompatible, toJsonKVs, pyStr, coerceDictKVs,
    coerceStr, coerceFloat, coerceInt, pyFloat?, pyInt?,
    toJson_optIntVal, coerceOptionalInt_optIntVal, htags2]
  rfl

/-- C2 (amended): the decode of an encoded run is the run itself whenever
every recorded tool call carries a mapping `arguments` whose value (and the
call's `result`, and the metadata tags) is already JSON-compatible.  Without
these side conditions the round trip is not the identity: the encoder
normalizes non-JSON payloads (e.g. a recorded `set` result becomes a sorted
list), so a run built via `Recorder` with such a payload decodes to a
different run — see the counterexample. -/
theorem run_round_trip_spec (r : AgentRun)
    (htc : ∀ t ∈ r.turns, ∀ tc ∈ t.tool_calls,
      (∃ kvs, tc.arguments = PyVal.dict kvs)
        ∧ isJson tc.arguments = true ∧ isJson tc.result = true)
    (htags : isJsonList r.metadata.tags = true) :
    run_from_dict (coerceDictKVs (run_to_dict r)) = Except.ok r := by
  have hturn : ∀ t ∈ r.turns, turnFromDict (toJsonKVs (turnBody t)) = Except.ok t :=
    fun t ht => turn_round_trip t (htc t ht)
  have hmap : mapME turnFromDict
      ((coerceList (PyVal.list (toJsonList (List.map turnToDict r.turns)))).filterMap dictEntry)
      = Except.ok r.turns := by
    rw [coerceList, toJsonList_eq_map, List.map_map]
    exact mapME_decode_turns r.turns hturn
  exact run_from_to_dict_eq r r.turns hmap (toJsonList_fixed _ htags)
/-- A JSON-clean run: one assistant turn with content, one tool call whose
arguments form a string-keyed JSON object, timing and token usage. -/
def c2run : AgentRun :=
  { run_id := "r1",
    turns := [{ index := 0, role := TurnRole.assistant, content := some "hi",
                tool_calls := [{ id := "1", function := "f",
                                 arguments := PyVal.dict [(.str "x", .int 3)],
                                 result := PyVal.str "ok", duration_ms := some 2 }],
                timing := some { latency_ms := some 5 },
                tokens := some { prompt := 1, completion := 2, total := 3 } }] }

theorem run_round_trip_spec_witness :
    run_from_dict (coerceDictKVs (run_to_dict c2run)) = Except.ok c2run := by
  refine run_round_trip_spec c2run ?_ ?_
  · intro t ht tc htc
    simp only [c2run, List.mem_singleton] at ht
    subst ht
    simp only [List.mem_singleton] at htc
    subst htc
    refine ⟨⟨_, rfl⟩, ?_, ?_⟩
    · simp [isJson, isJsonKVs]
    · simp [isJson]
  · show isJsonList [] = true
    rw [isJsonList]

/-- A recorder session started at monotonic time 0. -/
def c2rec0 : Recorder :=
  (Recorder.init "rid" "2024-01-01T00:00:00" "0.1.0").beginSession 0

/-- A tool-call payload whose `result` is a Python `set` — accepted verbatim
by `Recorder.add_turn` (`result=tc.get("result")`). -/
def c2call : PyVal :=
  .dict [(.str "id", .str "1"), (.str "function", .str "f"),
         (.str "arguments", .dict []), (.str "result", .pyset [])]

/-- The recorder state after recording the turn that carries `c2call`. -/
def c2rec1 : Recorder :=
  (Recorder.add_turn c2rec0 "assistant" Option.none [c2call]
    PyVal.none (PyVal.int 0) (PyVal.int 0)).2

/-- The run produced by the `recording()` exit at monotonic time 0. -/
def c2final : AgentRun :=
  (c2rec1.endSession 0).run

/-- The turn the recorder stores for `c2call`: the `set` result verbatim. -/
def c2turnRec : Turn :=
  { index := 0, role := TurnRole.assistant,
    tool_calls := [{ id := "1", function := "f", arguments := PyVal.dict [],
                     result := PyVal.pyset [], duration_ms := Option.none }] }

/-- The turn that comes back from decode: the result is now an empty list. -/
def c2turnDec : Turn :=
  { index := 0, role := TurnRole.assistant,
    tool_calls := [{ id := "1", function := "f", arguments := PyVal.dict [],
                     result := PyVal.list [], duration_ms := Option.none }] }

/-- The dict the encoder produces for `c2turnRec`. -/
def c2turnDoc : List (PyVal × PyVal) :=
  [(.str "index", .int 0), (.str "role", .str "assistant"),
   (.str "tool_calls", .list [.dict [
     (.str "id", .str "1"), (.str "function", .str "f"),
     (.str "arguments", .dict []), (.str "result", .list []),
     (.str "duration_ms", .none)]])]

/-- The C2 claim as stated is false: a run built purely via the recorder
(`init`/`beginSession`/`add_turn`/`endSession`) whose tool call records a
`set` result decodes, after encoding, to a run whose result is a list — not
the recorded run, and not even Python-`==` to it. -/
theorem run_round_trip_claim_counterexample :
    (Recorder.add_turn c2rec0 "assistant" Option.none [c2call]
        PyVal.none (PyVal.int 0) (PyVal.int 0)).1 = Except.ok c2turnRec
    ∧ c2final.turns = [c2turnRec]
    ∧ c2turnRec.tool_calls.map ToolCall.result = [PyVal.pyset []]
    ∧ run_from_dict (coerceDictKVs (run_to_dict c2final))
        = Except.ok { c2final with turns := [c2turnDec] }
    ∧ c2turnDec.tool_calls.map ToolCall.result = [PyVal.list []]
    ∧ ({ c2final with turns := [c2turnDec] } : AgentRun) ≠ c2final
    ∧ pyEq (PyVal.list []) (PyVal.pyset []) = false := by
  have hturns : c2final.turns = [c2turnRec] := rfl
  have henc : toJsonCompatible (turnToDict c2turnRec) = PyVal.dict c2turnDoc := by
    simp [c2turnRec, c2turnDoc, turnToDict, turnBody, toolCallToDict,
      toJsonCompatible, toJsonKVs, toJsonList, setSorted, pyStr, optFloatVal,
      TurnRole.value]
  have hmap : mapME turnFromDict
      ((coerceList (PyVal.list (toJsonList (List.map turnToDict c2final.turns)))).filterMap
        dictEntry) = Except.ok [c2turnDec] := by
    rw [hturns, List.map_cons, List.map_nil, toJsonList, toJsonList, henc]
    show mapME turnFromDict [c2turnDoc] = Except.ok [c2turnDec]
    rfl
  have htags2 : toJsonList c2final.metadata.tags = c2final.metadata.tags := by
    show toJsonList [] = []
    rw [toJsonList]
  refine ⟨rfl, hturns, rfl, run_from_to_dict_eq c2final [c2turnDec] hmap htags2,
    rfl, ?_, ?_⟩
  · intro h
    have h2 : ([[PyVal.list []]] : List (List PyVal)) = [[PyVal.pyset []]] :=
      congrArg (fun r2 => r2.turns.map (fun t => t.tool_calls.map ToolCall.result)) h
    simp at h2
  · simp [pyEq, toNumQ]
